import Mathlib

/-!
Verification of the scheduling and conflict-resolution engine of the
golestan-web repository.

The definitions below are a shallow embedding of the Python source:

* `app/core/course_utils.py` : `to_minutes`, `overlap`, `schedules_conflict`,
  `calculate_days_needed_for_combo`, `calculate_empty_time_for_combo`,
  `generate_best_combinations_for_groups`, `create_greedy_schedule`,
  `create_alternative_schedule`.
* `app/core/config.py` : the canonical day list and the extended time-slot
  grid.
* `app/main_window.py` : the occupancy store kept in the `placed`
  dictionary, `remove_course_from_schedule`, `get_course_priority` and the
  conflict-scan / priority-resolution / commit phases of
  `_add_course_internal`.

Times are modelled as hour/minute pairs (the HH:MM strings of the source,
which `to_minutes` parses with `h * 60 + mm`).  Course catalogs and the
occupancy store are modelled as association lists, matching the
insertion-ordered Python dictionaries.  Floating point penalties are
modelled over `ℚ`: every quantity the source manipulates is a sum of
integer minute counts divided by 60.
-/

namespace Golestan

/-- Clock time: the hour and minute fields of an HH:MM time string. -/
structure HM where
  h : Nat
  m : Nat
deriving DecidableEq, Repr

/-- Source `to_minutes`: minutes since midnight of an HH:MM time. -/
def to_minutes (t : HM) : Nat := t.h * 60 + t.m

/-- Source `overlap`: do two half-open intervals intersect. -/
def overlap (s1 e1 s2 e2 : Nat) : Bool := !(decide (e1 ≤ s2) || decide (e2 ≤ s1))

/-- A course session: day name, start time, end time (field `stop`, since
`end` is a reserved word), and parity marker (empty, "ف" for odd weeks,
"ز" for even weeks). -/
structure Session where
  day : String
  start : HM
  stop : HM
  parity : String
deriving DecidableEq, Repr

/-- The parity-compatibility test appearing inside `schedules_conflict`
(and again in the conflict scan of `_add_course_internal`): exactly one
odd-week / even-week complement pair. -/
def parityCompatible (p q : String) : Bool :=
  (p == "ز" && q == "ف") || (p == "ف" && q == "ز")

/-- The decision the inner loop body of `schedules_conflict` makes for one
pair of sessions: skip on distinct days, skip on complementary parity,
otherwise report a conflict exactly when the minute intervals overlap. -/
def sessionConflict (a b : Session) : Bool :=
  if a.day != b.day then false
  else if parityCompatible a.parity b.parity then false
  else overlap (to_minutes a.start) (to_minutes a.stop) (to_minutes b.start) (to_minutes b.stop)

/-- Source `schedules_conflict`: true iff some pair of sessions, one from
each schedule, conflicts. -/
def schedules_conflict (sch1 sch2 : List Session) : Bool :=
  sch1.any fun a => sch2.any fun b => sessionConflict a b

/-- A catalog record: the fields of a course the engine reads. -/
structure Course where
  name : String
  code : String
  schedule : List Session
deriving DecidableEq, Repr

/-- The course catalog (the `COURSES` dictionary), as an insertion-ordered
association list from course key to record. -/
abbrev Catalog := List (String × Course)

/-- Dictionary lookup `COURSES.get(key)`: first entry with the key. -/
def lookupCourse : Catalog → String → Option Course
  | [], _ => none
  | kv :: rest, k => if kv.1 == k then some kv.2 else lookupCourse rest k

/-- The schedule of a catalog key, defaulting to the empty list
(`COURSES[k].get('schedule', [])`; on every call site the source applies
this only to keys present in the catalog). -/
def schedOf (courses : Catalog) (k : String) : List Session :=
  ((lookupCourse courses k).map Course.schedule).getD []

/-- The loop of `create_greedy_schedule`: walk the priority order with the
accumulator of already selected keys; skip keys absent from the catalog,
skip keys conflicting with a selected course, otherwise append. -/
def greedyGo (courses : Catalog) (selected : List String) : List String → List String
  | [] => selected
  | key :: rest =>
    match lookupCourse courses key with
    | none => greedyGo courses selected rest
    | some c =>
      if selected.any (fun sk => schedules_conflict c.schedule (schedOf courses sk)) then
        greedyGo courses selected rest
      else
        greedyGo courses (selected ++ [key]) rest

/-- Source `create_greedy_schedule`. -/
def create_greedy_schedule (courses : Catalog) (ordered : List String) : List String :=
  greedyGo courses [] ordered

theorem overlap_comm (s1 e1 s2 e2 : Nat) : overlap s1 e1 s2 e2 = overlap s2 e2 s1 e1 := by
  unfold overlap
  rw [Bool.or_comm]

theorem parityCompatible_comm (p q : String) :
    parityCompatible p q = parityCompatible q p := by
  unfold parityCompatible
  rw [Bool.or_comm]
  congr 1 <;> rw [Bool.and_comm]

theorem sessionConflict_comm (a b : Session) :
    sessionConflict a b = sessionConflict b a := by
  unfold sessionConflict
  rcases eq_or_ne a.day b.day with hd | hd
  · have h1 : (a.day != b.day) = false := by simp [hd]
    have h2 : (b.day != a.day) = false := by simp [hd]
    rw [h1, h2, parityCompatible_comm, overlap_comm]
  · have h1 : (a.day != b.day) = true := by simp [hd]
    have h2 : (b.day != a.day) = true := by simp [hd.symm]
    rw [h1, h2]
    simp

theorem schedules_conflict_iff (s1 s2 : List Session) :
    schedules_conflict s1 s2 = true ↔
      ∃ a ∈ s1, ∃ b ∈ s2, sessionConflict a b = true := by
  simp [schedules_conflict, List.any_eq_true]

theorem schedules_conflict_comm (s1 s2 : List Session) :
    schedules_conflict s1 s2 = schedules_conflict s2 s1 := by
  have h : schedules_conflict s1 s2 = true ↔ schedules_conflict s2 s1 = true := by
    rw [schedules_conflict_iff, schedules_conflict_iff]
    constructor
    · rintro ⟨a, ha, b, hb, hc⟩
      exact ⟨b, hb, a, ha, (sessionConflict_comm a b) ▸ hc⟩
    · rintro ⟨b, hb, a, ha, hc⟩
      exact ⟨a, ha, b, hb, (sessionConflict_comm b a) ▸ hc⟩
  cases h1 : schedules_conflict s1 s2 <;> cases h2 : schedules_conflict s2 s1 <;>
    simp_all

theorem schedules_conflict_nil_left (sch : List Session) :
    schedules_conflict [] sch = false := rfl

theorem schedules_conflict_nil_right (sch : List Session) :
    schedules_conflict sch [] = false := by
  rw [schedules_conflict_comm]
  exact schedules_conflict_nil_left sch

theorem mem_greedyGo_of_mem (courses : Catalog) :
    ∀ (rest selected : List String) (key : String),
      key ∈ selected → key ∈ greedyGo courses selected rest := by
  intro rest
  induction rest with
  | nil => intro selected key hk; exact hk
  | cons k rest ih =>
    intro selected key hk
    cases h : lookupCourse courses k with
    | none =>
      simp only [greedyGo, h]
      exact ih selected key hk
    | some c =>
      simp only [greedyGo, h]
      by_cases hc :
          (selected.any (fun sk => schedules_conflict c.schedule (schedOf courses sk))) = true
      · rw [if_pos hc]; exact ih selected key hk
      · rw [if_neg hc]
        exact ih (selected ++ [k]) key (List.mem_append_left _ hk)

theorem greedy_selects_empty_schedule (courses : Catalog) :
    ∀ (ordered selected : List String) (key : String) (c : Course),
      lookupCourse courses key = some c → c.schedule = [] → key ∈ ordered →
      key ∈ greedyGo courses selected ordered := by
  intro ordered
  induction ordered with
  | nil => intro _ _ _ _ _ h; exact absurd h (List.not_mem_nil _)
  | cons k rest ih =>
    intro selected key c hl hsch hmem
    rcases List.mem_cons.mp hmem with heq | htail
    · subst heq
      simp only [greedyGo, hl]
      have hcond :
          (selected.any (fun sk => schedules_conflict c.schedule (schedOf courses sk))) = false := by
        rw [hsch]
        simp [schedules_conflict]
      rw [hcond]
      simp only [Bool.false_eq_true, if_false]
      exact mem_greedyGo_of_mem courses rest (selected ++ [key]) key
        (List.mem_append_right _ (List.mem_singleton.mpr rfl))
    · cases h2 : lookupCourse courses k with
      | none =>
        simp only [greedyGo, h2]
        exact ih selected key c hl hsch htail
      | some c2 =>
        simp only [greedyGo, h2]
        by_cases hc :
            (selected.any (fun sk => schedules_conflict c2.schedule (schedOf courses sk))) = true
        · rw [if_pos hc]; exact ih selected key c hl hsch htail
        · rw [if_neg hc]; exact ih (selected ++ [k]) key c hl hsch htail

/-- Does the needle start the haystack, over character lists. -/
def charStartsWith : List Char → List Char → Bool
  | [], _ => true
  | _ :: _, [] => false
  | n :: ns, h :: hs => n == h && charStartsWith ns hs

/-- Does the needle occur contiguously in the haystack. -/
def charContains (needle : List Char) : List Char → Bool
  | [] => charStartsWith needle []
  | c :: hs => charStartsWith needle (c :: hs) || charContains needle hs

/-- Substring containment, the Python idiom `needle in hay` (the empty
needle is contained in everything). -/
def strContains (hay needle : String) : Bool :=
  charContains needle.toList hay.toList

/-- The longest prefix of a course code before an underscore, the Python
idiom `code.split('_')[0]`. -/
def codeGroupPrefix (code : String) : String :=
  ⟨code.toList.takeWhile (fun c => c != '_')⟩

/-- Group resolution of `generate_best_combinations_for_groups`: first the
keys whose course code starts (before the underscore) with the group
string; if none, the keys whose code equals the group string or whose name
contains it. -/
def candidatesFor (courses : Catalog) (g : String) : List String :=
  let c1 := (courses.filter (fun kv => codeGroupPrefix kv.2.code == g)).map (·.1)
  if c1.isEmpty then
    (courses.filter (fun kv => kv.2.code == g || strContains kv.2.name g)).map (·.1)
  else c1

/-- The first loop of `generate_best_combinations_for_groups`: resolve
each group string to its candidate keys; a group with no candidates makes
the function return the empty list at once (modelled as `none`). -/
def resolveGroups (courses : Catalog) : List String → Option (List (List String))
  | [] => some []
  | g :: gs =>
    let cands := candidatesFor courses g
    if cands.isEmpty then none
    else (resolveGroups courses gs).map (cands :: ·)

/-- Cartesian product of a list of candidate lists, in the tuple order of
`itertools.product`. -/
def listProduct : List (List String) → List (List String)
  | [] => [[]]
  | l :: ls => l.flatMap (fun x => (listProduct ls).map (x :: ·))

/-- The pairwise conflict filter of the product loop: the nested
`for i, for j > i` scan that discards a tuple on the first conflict. -/
def comboOk (courses : Catalog) : List String → Bool
  | [] => true
  | k :: ks =>
    ks.all (fun j => !(schedules_conflict (schedOf courses k) (schedOf courses j))) &&
    comboOk courses ks

/-- Source `calculate_days_needed_for_combo`: the number of distinct days
used by the sessions of the given keys. -/
def calculate_days_needed_for_combo (courses : Catalog) (keys : List String) : Nat :=
  ((keys.flatMap (fun k => (schedOf courses k).map (·.day))).dedup).length

/-- The distinct days the keys occupy (the key set of the per-day `daily`
dictionary built by `calculate_empty_time_for_combo`). -/
def daysOf (courses : Catalog) (keys : List String) : List String :=
  (keys.flatMap (fun k => (schedOf courses k).map (·.day))).dedup

/-- The minute intervals the keys occupy on one day, in encounter order. -/
def intervalsForDay (courses : Catalog) (keys : List String) (d : String) :
    List (Nat × Nat) :=
  keys.flatMap (fun k =>
    ((schedOf courses k).filter (fun s => s.day == d)).map
      (fun s => (to_minutes s.start, to_minutes s.stop)))

/-- Lexicographic order on (start, end) pairs, the tuple order Python
sorts the per-day interval lists by. -/
def pairLE (a b : Nat × Nat) : Bool :=
  a.1 < b.1 || (a.1 == b.1 && a.2 ≤ b.2)

def insertInterval (x : Nat × Nat) : List (Nat × Nat) → List (Nat × Nat)
  | [] => [x]
  | y :: ys => if pairLE x y then x :: y :: ys else y :: insertInterval x ys

/-- Sorting of one day's intervals (`intervals.sort()`). -/
def sortIntervals (l : List (Nat × Nat)) : List (Nat × Nat) :=
  l.foldr insertInterval []

/-- The gap accumulation of `calculate_empty_time_for_combo` over one
sorted interval list: each gap strictly greater than 15 minutes between
consecutive intervals contributes `gap / 60.0`. -/
def gapsPenalty : List (Nat × Nat) → ℚ
  | [] => 0
  | [_] => 0
  | a :: b :: rest =>
    (if (15 : ℤ) < (b.1 : ℤ) - (a.2 : ℤ) then ((b.1 : ℚ) - (a.2 : ℚ)) / 60 else 0) +
    gapsPenalty (b :: rest)

/-- Source `calculate_empty_time_for_combo`. -/
def calculate_empty_time_for_combo (courses : Catalog) (keys : List String) : ℚ :=
  ((daysOf courses keys).map
    (fun d => gapsPenalty (sortIntervals (intervalsForDay courses keys d)))).sum

/-- Modelled from the spec: the gap penalty as section 4.4 words it, the
sum per day of the minutes of idle time of each gap strictly greater than
the 15-minute threshold (no division by 60).  Used only to compare the
specification sentence with the source computation. -/
def gapMinutes : List (Nat × Nat) → ℚ
  | [] => 0
  | [_] => 0
  | a :: b :: rest =>
    (if (15 : ℤ) < (b.1 : ℤ) - (a.2 : ℤ) then ((b.1 : ℚ) - (a.2 : ℚ)) else 0) +
    gapMinutes (b :: rest)

/-- Modelled from the spec: the per-combination gap penalty in minutes. -/
def spec_gap_penalty_minutes (courses : Catalog) (keys : List String) : ℚ :=
  ((daysOf courses keys).map
    (fun d => gapMinutes (sortIntervals (intervalsForDay courses keys d)))).sum

/-- One output combination: the dictionary
`{'courses': keys, 'days': days, 'empty': empty, 'score': score}`. -/
structure Combo where
  courses : List String
  days : Nat
  empty : ℚ
  score : ℚ
deriving DecidableEq, Repr

/-- The record built for a surviving tuple, with
`score = days + 0.5 * empty`. -/
def mkCombo (courses : Catalog) (keys : List String) : Combo :=
  ⟨keys,
   calculate_days_needed_for_combo courses keys,
   calculate_empty_time_for_combo courses keys,
   (calculate_days_needed_for_combo courses keys : ℚ) +
     (1 / 2) * calculate_empty_time_for_combo courses keys⟩

/-- The final ascending sort key `(days, empty, score)` of
`generate_best_combinations_for_groups`, as a strict comparison for the
stable insertion below. -/
def comboLT (a b : Combo) : Bool :=
  a.days < b.days ||
  (a.days == b.days && (a.empty < b.empty || (a.empty == b.empty && a.score < b.score)))

def insertCombo (x : Combo) : List Combo → List Combo
  | [] => [x]
  | y :: ys => if comboLT x y then x :: y :: ys else y :: insertCombo x ys

/-- Stable ascending sort of the combination list. -/
def sortCombos (l : List Combo) : List Combo :=
  l.foldl (fun acc x => insertCombo x acc) []

/-- Source `generate_best_combinations_for_groups`. -/
def generate_best_combinations_for_groups (courses : Catalog) (group_keys : List String) :
    List Combo :=
  match resolveGroups courses group_keys with
  | none => []
  | some groups =>
    sortCombos ((listProduct groups).filterMap (fun keys =>
      if comboOk courses keys then some (mkCombo courses keys) else none))

theorem mem_insertCombo (x y : Combo) (l : List Combo) :
    y ∈ insertCombo x l ↔ y = x ∨ y ∈ l := by
  induction l with
  | nil => simp [insertCombo]
  | cons z zs ih =>
    unfold insertCombo
    by_cases h : comboLT x z = true
    · rw [if_pos h]
      simp [List.mem_cons]
    · rw [if_neg h]
      simp only [List.mem_cons, ih]
      tauto

theorem mem_sortCombos_aux (l : List Combo) :
    ∀ (acc : List Combo) (y : Combo),
      y ∈ l.foldl (fun acc x => insertCombo x acc) acc ↔ y ∈ l ∨ y ∈ acc := by
  induction l with
  | nil => intro acc y; simp
  | cons z zs ih =>
    intro acc y
    simp only [List.foldl_cons]
    rw [ih (insertCombo z acc) y, mem_insertCombo]
    simp only [List.mem_cons]
    tauto

theorem mem_sortCombos (l : List Combo) (y : Combo) :
    y ∈ sortCombos l ↔ y ∈ l := by
  unfold sortCombos
  rw [mem_sortCombos_aux]
  simp

theorem comboOk_pairwise (courses : Catalog) :
    ∀ keys : List String, comboOk courses keys = true →
      List.Pairwise (fun a b =>
        schedules_conflict (schedOf courses a) (schedOf courses b) = false) keys := by
  intro keys
  induction keys with
  | nil => intro _; exact List.Pairwise.nil
  | cons k ks ih =>
    intro h
    unfold comboOk at h
    rw [Bool.and_eq_true] at h
    refine List.Pairwise.cons ?_ (ih h.2)
    intro j hj
    have hx := (List.all_eq_true.mp h.1) j hj
    simpa using hx

theorem mem_generate_best_combinations (courses : Catalog) (group_keys : List String)
    (c : Combo) (hc : c ∈ generate_best_combinations_for_groups courses group_keys) :
    comboOk courses c.courses = true ∧ c = mkCombo courses c.courses := by
  unfold generate_best_combinations_for_groups at hc
  cases hr : resolveGroups courses group_keys with
  | none => rw [hr] at hc; simp at hc
  | some groups =>
    rw [hr] at hc
    rw [mem_sortCombos] at hc
    obtain ⟨keys, _, hf⟩ := List.mem_filterMap.mp hc
    by_cases hok : comboOk courses keys = true
    · rw [if_pos hok] at hf
      have hck : c = mkCombo courses keys := (Option.some.inj hf).symm
      have hcourses : c.courses = keys := by rw [hck]; rfl
      rw [hcourses]
      exact ⟨hok, hck⟩
    · rw [if_neg hok] at hf
      cases hf

/-- C1: for every pair of sessions a and b, the conflict check returns
false when the days differ; returns false when the two parities are the
exact odd/even complement pair, regardless of time overlap; and otherwise
returns true exactly when the two half-open minute intervals overlap,
i.e. not (end1 <= start2 or end2 <= start1). -/
theorem C1_conflict_check_characterization (a b : Session) :
    (a.day ≠ b.day → sessionConflict a b = false) ∧
    (parityCompatible a.parity b.parity = true → sessionConflict a b = false) ∧
    (a.day = b.day → parityCompatible a.parity b.parity = false →
      (sessionConflict a b = true ↔
        ¬(to_minutes a.stop ≤ to_minutes b.start ∨ to_minutes b.stop ≤ to_minutes a.start))) := by
  refine ⟨?_, ?_, ?_⟩
  · intro hd
    unfold sessionConflict
    have h1 : (a.day != b.day) = true := by simp [hd]
    rw [h1]
    simp
  · intro hp
    unfold sessionConflict
    by_cases hd : (a.day != b.day) = true
    · rw [if_pos hd]
    · rw [if_neg hd, hp]
      simp
  · intro hd hp
    unfold sessionConflict
    have h1 : (a.day != b.day) = false := by simp [hd]
    rw [h1, hp]
    simp only [Bool.false_eq_true, if_false]
    unfold overlap
    constructor
    · intro h hcontra
      rcases hcontra with hcase | hcase <;> simp_all
    · intro h
      simp only [not_or] at h
      simp [h.1, h.2]

/-- Witness for C1 at a concrete pair: same day, parities empty,
intervals 08:00-10:00 and 09:00-11:00 overlap, so the check reports a
conflict. -/
theorem C1_witness :
    sessionConflict ⟨"شنبه", ⟨8, 0⟩, ⟨10, 0⟩, ""⟩ ⟨"شنبه", ⟨9, 0⟩, ⟨11, 0⟩, ""⟩ = true :=
  ((C1_conflict_check_characterization _ _).2.2 rfl (by decide)).mpr (by decide)

/-- C9: the conflict check is symmetric, both for single sessions and for
whole schedules (lists of sessions). -/
theorem C9_conflict_symmetry :
    (∀ a b : Session, sessionConflict a b = sessionConflict b a) ∧
    (∀ s1 s2 : List Session, schedules_conflict s1 s2 = schedules_conflict s2 s1) :=
  ⟨sessionConflict_comm, schedules_conflict_comm⟩

/-- C10: an empty session list conflicts with nothing, on either side of
the check; consequently the greedy pass selects every catalog course with
an empty schedule wherever it sits in the priority order. -/
theorem C10_empty_schedule_never_conflicts :
    (∀ sch : List Session,
      schedules_conflict [] sch = false ∧ schedules_conflict sch [] = false) ∧
    (∀ (courses : Catalog) (ordered : List String) (key : String) (c : Course),
      lookupCourse courses key = some c → c.schedule = [] → key ∈ ordered →
      key ∈ create_greedy_schedule courses ordered) := by
  constructor
  · intro sch
    exact ⟨schedules_conflict_nil_left sch, schedules_conflict_nil_right sch⟩
  · intro courses ordered key c hl hsch hmem
    exact greedy_selects_empty_schedule courses ordered [] key c hl hsch hmem

/-- Witness for C10: a one-course catalog where the course has an empty
schedule; the greedy pass selects it. -/
theorem C10_witness :
    "A" ∈ create_greedy_schedule [("A", ⟨"A", "", []⟩)] ["B", "A"] :=
  (C10_empty_schedule_never_conflicts.2 [("A", ⟨"A", "", []⟩)] ["B", "A"] "A"
    ⟨"A", "", []⟩ rfl rfl (by decide))

theorem gapsPenalty_eq_minutes_div (l : List (Nat × Nat)) :
    gapsPenalty l = gapMinutes l / 60 := by
  induction l with
  | nil => simp [gapsPenalty, gapMinutes]
  | cons a rest ih =>
    cases rest with
    | nil => simp [gapsPenalty, gapMinutes]
    | cons b rest2 =>
      by_cases h : (15 : ℤ) < (b.1 : ℤ) - (a.2 : ℤ)
      · simp only [gapsPenalty, gapMinutes, if_pos h]
        rw [ih, add_div]
      · simp only [gapsPenalty, gapMinutes, if_neg h]
        rw [ih, add_div, zero_div]

theorem sum_map_div_sixty (l : List String) (f : String → ℚ) :
    (l.map (fun d => f d / 60)).sum = (l.map f).sum / 60 := by
  induction l with
  | nil => simp
  | cons a rest ih => simp [ih, add_div]

theorem calculate_empty_time_eq_minutes_div (courses : Catalog) (keys : List String) :
    calculate_empty_time_for_combo courses keys =
      spec_gap_penalty_minutes courses keys / 60 := by
  unfold calculate_empty_time_for_combo spec_gap_penalty_minutes
  simp only [gapsPenalty_eq_minutes_div]
  exact sum_map_div_sixty (daysOf courses keys)
    (fun d => gapMinutes (sortIntervals (intervalsForDay courses keys d)))

theorem resolveGroups_eq_none (courses : Catalog) :
    ∀ (gs : List String) (g : String), g ∈ gs → candidatesFor courses g = [] →
      resolveGroups courses gs = none := by
  intro gs
  induction gs with
  | nil => intro g h _; exact absurd h (List.not_mem_nil g)
  | cons k rest ih =>
    intro g hmem hcand
    rcases List.mem_cons.mp hmem with heq | htail
    · subst heq
      simp only [resolveGroups]
      rw [hcand]
      simp
    · simp only [resolveGroups]
      by_cases hk : (candidatesFor courses k).isEmpty = true
      · rw [if_pos hk]
      · rw [if_neg hk, ih g htail hcand]
        rfl

/-- C4: every combination returned by the generator is pairwise
conflict-free: for any two distinct member positions the conflict check
over the two schedules returns false. -/
theorem C4_combination_soundness (courses : Catalog) (group_keys : List String)
    (c : Combo) (hc : c ∈ generate_best_combinations_for_groups courses group_keys)
    (i j : Fin c.courses.length) (hij : i ≠ j) :
    schedules_conflict (schedOf courses (c.courses.get i))
      (schedOf courses (c.courses.get j)) = false := by
  obtain ⟨hok, _⟩ := mem_generate_best_combinations courses group_keys c hc
  have hpw := comboOk_pairwise courses c.courses hok
  rw [List.pairwise_iff_get] at hpw
  rcases lt_or_gt_of_ne hij with h | h
  · exact hpw i j h
  · rw [schedules_conflict_comm]
    exact hpw j i h

/-- Two-course catalog on different days used to witness C4: both courses
survive and their schedules do not conflict. -/
def C4cat : Catalog :=
  [("A", ⟨"A", "A1", [⟨"شنبه", ⟨8, 0⟩, ⟨9, 0⟩, ""⟩]⟩),
   ("B", ⟨"B", "B1", [⟨"یکشنبه", ⟨8, 0⟩, ⟨9, 0⟩, ""⟩]⟩)]

/-- Witness for C4 on a concrete two-group search. -/
theorem C4_witness :
    schedules_conflict (schedOf C4cat ((mkCombo C4cat ["A", "B"]).courses.get ⟨0, by decide⟩))
      (schedOf C4cat ((mkCombo C4cat ["A", "B"]).courses.get ⟨1, by decide⟩)) = false :=
  C4_combination_soundness C4cat ["A1", "B1"] (mkCombo C4cat ["A", "B"])
    (by
      norm_num +decide [generate_best_combinations_for_groups, resolveGroups, candidatesFor,
        listProduct, comboOk, mkCombo, sortCombos, insertCombo, comboLT,
        calculate_days_needed_for_combo, calculate_empty_time_for_combo, daysOf,
        intervalsForDay, schedOf, lookupCourse, sortIntervals, insertInterval, pairLE,
        gapsPenalty, to_minutes, schedules_conflict, sessionConflict, parityCompatible,
        overlap, strContains, charContains, charStartsWith, codeGroupPrefix, C4cat,
        List.dedup, List.pwFilter, Option.map, Option.getD, Function.comp,
        List.takeWhile, List.filterMap_cons, List.filterMap_nil, List.foldl_cons,
        List.foldl_nil, List.foldr_cons, List.foldr_nil])
    ⟨0, by decide⟩ ⟨1, by decide⟩ (by decide)

/-- One-course catalog with two same-day sessions separated by a
60-minute gap, used for C5. -/
def C5cat : Catalog :=
  [("A", ⟨"A", "A1",
    [⟨"شنبه", ⟨8, 0⟩, ⟨9, 0⟩, ""⟩, ⟨"شنبه", ⟨10, 0⟩, ⟨11, 0⟩, ""⟩]⟩)]

/-- C5 counterexample: on a 60-minute gap the source computes the penalty
1.0 (the gap divided by 60, i.e. hours), not the 60 minutes of idle time
the claim prescribes. -/
theorem C5_counterexample :
    calculate_empty_time_for_combo C5cat ["A"] = 1 ∧
    spec_gap_penalty_minutes C5cat ["A"] = 60 ∧
    calculate_empty_time_for_combo C5cat ["A"] ≠ spec_gap_penalty_minutes C5cat ["A"] := by
  refine ⟨?_, ?_, ?_⟩ <;>
    norm_num +decide [calculate_empty_time_for_combo, spec_gap_penalty_minutes, daysOf,
      intervalsForDay, schedOf, lookupCourse, sortIntervals, insertInterval, pairLE,
      gapsPenalty, gapMinutes, to_minutes, C5cat, List.dedup, List.pwFilter,
      Option.map, Option.getD, Function.comp, List.foldr_cons, List.foldr_nil]

/-- C5 amended: for every surviving tuple the stored gap penalty equals
the per-day sum of qualifying gap minutes divided by 60 (hours, not
minutes), and the composite score equals
distinct_days_used + 0.5 * gap_penalty. -/
theorem C5_score_and_gap_penalty (courses : Catalog) (group_keys : List String)
    (c : Combo) (hc : c ∈ generate_best_combinations_for_groups courses group_keys) :
    c.empty = spec_gap_penalty_minutes courses c.courses / 60 ∧
    c.score = (c.days : ℚ) + (1 / 2) * c.empty ∧
    c.days = calculate_days_needed_for_combo courses c.courses ∧
    c.empty = calculate_empty_time_for_combo courses c.courses := by
  obtain ⟨hok, hck⟩ := mem_generate_best_combinations courses group_keys c hc
  obtain ⟨cs, d, e, s⟩ := c
  simp only [mkCombo, Combo.mk.injEq] at hck
  obtain ⟨hd, he, hs⟩ := hck.2
  subst hd
  subst he
  subst hs
  refine ⟨?_, rfl, rfl, rfl⟩
  exact calculate_empty_time_eq_minutes_div courses cs

/-- Witness for the amended C5 at the concrete 60-minute-gap catalog. -/
theorem C5_witness :
    (mkCombo C5cat ["A"]).empty =
      spec_gap_penalty_minutes C5cat (mkCombo C5cat ["A"]).courses / 60 :=
  (C5_score_and_gap_penalty C5cat ["A1"] (mkCombo C5cat ["A"])
    (by
      norm_num +decide [generate_best_combinations_for_groups, resolveGroups, candidatesFor,
        listProduct, comboOk, mkCombo, sortCombos, insertCombo, comboLT,
        calculate_days_needed_for_combo, calculate_empty_time_for_combo, daysOf,
        intervalsForDay, schedOf, lookupCourse, sortIntervals, insertInterval, pairLE,
        gapsPenalty, to_minutes, schedules_conflict, sessionConflict, parityCompatible,
        overlap, strContains, charContains, charStartsWith, codeGroupPrefix, C5cat,
        List.dedup, List.pwFilter, Option.map, Option.getD, Function.comp,
        List.takeWhile, List.filterMap_cons, List.filterMap_nil, List.foldl_cons,
        List.foldl_nil, List.foldr_cons, List.foldr_nil])).1

/-- C6 counterexample: on the empty group list the generator returns a
singleton list holding the empty combination, not the empty result the
claim requires. -/
theorem C6_counterexample :
    generate_best_combinations_for_groups [] [] = [⟨[], 0, 0, 0⟩] ∧
    generate_best_combinations_for_groups [] [] ≠ [] := by
  have h : generate_best_combinations_for_groups [] [] = [⟨[], 0, 0, 0⟩] := by
    norm_num +decide [generate_best_combinations_for_groups, resolveGroups, listProduct,
      comboOk, mkCombo, sortCombos, insertCombo, calculate_days_needed_for_combo,
      calculate_empty_time_for_combo, daysOf, List.dedup, List.pwFilter,
      List.filterMap_cons, List.filterMap_nil, List.foldl_cons, List.foldl_nil,
      List.foldr_cons, List.foldr_nil]
  exact ⟨h, by rw [h]; exact List.cons_ne_nil _ _⟩

/-- C6 amended: an empty group list yields exactly one combination, the
empty pick with zero metrics (still not an error); a group string with no
catalog candidates makes the whole result empty. -/
theorem C6_degenerate_inputs (courses : Catalog) :
    generate_best_combinations_for_groups courses [] = [⟨[], 0, 0, 0⟩] ∧
    (∀ (group_keys : List String) (g : String),
      g ∈ group_keys → candidatesFor courses g = [] →
      generate_best_combinations_for_groups courses group_keys = []) := by
  constructor
  · norm_num +decide [generate_best_combinations_for_groups, resolveGroups, listProduct,
      comboOk, mkCombo, sortCombos, insertCombo, calculate_days_needed_for_combo,
      calculate_empty_time_for_combo, daysOf, List.dedup, List.pwFilter,
      List.filterMap_cons, List.filterMap_nil, List.foldl_cons, List.foldl_nil,
      List.foldr_cons, List.foldr_nil]
  · intro gk g hmem hcand
    unfold generate_best_combinations_for_groups
    rw [resolveGroups_eq_none courses gk g hmem hcand]

/-- Witness for the amended C6: a group string matching nothing empties
the whole result. -/
theorem C6_witness :
    generate_best_combinations_for_groups [("A", ⟨"A", "A1", []⟩)] ["Z"] = [] :=
  (C6_degenerate_inputs [("A", ⟨"A", "A1", []⟩)]).2 ["Z"] "Z" (by decide)
    (by
      norm_num +decide [candidatesFor, codeGroupPrefix, strContains, charContains,
        charStartsWith, List.takeWhile])

/-- The first loop of `create_alternative_schedule`: walk the priority
list, moving conflicting courses to the skipped list; the loop breaks as
soon as `skip_count` courses are skipped.  The source indexes
`COURSES[course_key]` directly here (no membership guard), so a key
absent from the catalog raises KeyError, modelled as `none`.  The inner
conflict scan reads the schedules of already-selected keys, which are
always present in the catalog, so `schedOf` is used for them. -/
def altFirstLoop (courses : Catalog) (skip_count : Nat) :
    List String → List String → List String → Option (List String × List String)
  | [], selected, skipped => some (selected, skipped)
  | key :: rest, selected, skipped =>
    if skip_count ≤ skipped.length then some (selected, skipped)
    else
      match lookupCourse courses key with
      | none => none
      | some c =>
        if selected.any (fun sel => schedules_conflict c.schedule (schedOf courses sel)) then
          altFirstLoop courses skip_count rest selected (skipped ++ [key])
        else
          altFirstLoop courses skip_count rest (selected ++ [key]) skipped

/-- The second loop of `create_alternative_schedule`: re-attempt every
course that is in neither the selected nor the skipped list, again with a
direct (fallible) catalog index. -/
def altSecondLoop (courses : Catalog) (skipped : List String) :
    List String → List String → Option (List String)
  | [], selected => some selected
  | key :: rest, selected =>
    if selected.contains key || skipped.contains key then
      altSecondLoop courses skipped rest selected
    else
      match lookupCourse courses key with
      | none => none
      | some c =>
        if selected.any (fun sel => schedules_conflict c.schedule (schedOf courses sel)) then
          altSecondLoop courses skipped rest selected
        else
          altSecondLoop courses skipped rest (selected ++ [key])

/-- Source `create_alternative_schedule`; `none` models the KeyError the
source raises when the ordered list holds a key absent from the
catalog. -/
def create_alternative_schedule (courses : Catalog) (ordered : List String)
    (skip_count : Nat) : Option (List String) :=
  match altFirstLoop courses skip_count ordered [] [] with
  | none => none
  | some (selected, skipped) => altSecondLoop courses skipped ordered selected

/-- C8: on a priority order holding a key absent from the catalog, the
greedy pass skips the key and succeeds, but the skip-k alternative pass
indexes the catalog directly and fails with KeyError (modelled `none`),
contradicting the never-crash policy the claim states. -/
theorem C8_unknown_key_crashes_alternative :
    create_greedy_schedule [("X", ⟨"X", "X1", []⟩)] ["ghost", "X"] = ["X"] ∧
    create_alternative_schedule [("X", ⟨"X", "X1", []⟩)] ["ghost", "X"] 1 = none := by
  constructor <;> decide

/-- Occupancy of one grid cell as recorded in the `placed` dictionary of
the main window: a single-course entry `{'course': key, 'rows': span}` or
a dual entry `{'courses': [odd_key, even_key], 'rows': span}`. -/
inductive CellInfo where
  | single (course : String) (rows : Nat)
  | dual (odd even : String) (rows : Nat)
deriving DecidableEq, Repr

/-- The occupancy store: the `placed` dictionary keyed by the origin cell
(start row, column), as an insertion-ordered association list.  Python
dict-order details (a converted entry is re-inserted at the tail) are not
tracked; every property stated below is order-insensitive. -/
abbrev Placed := List ((Nat × Nat) × CellInfo)

/-- Does a cell hold the course: the `'course' == key` test of single
entries or `key in info['courses']` of dual entries. -/
def cellHasCourse (key : String) : CellInfo → Bool
  | .single c _ => c == key
  | .dual o e _ => o == key || e == key

/-- The row span of a cell entry. -/
def cellRows : CellInfo → Nat
  | .single _ r => r
  | .dual _ _ r => r

/-- Cell lookup `placed.get(pos)`: the first entry at the position. -/
def lookupCell : Placed → (Nat × Nat) → Option CellInfo
  | [], _ => none
  | en :: rest, pos => if en.1 == pos then some en.2 else lookupCell rest pos

/-- Dictionary deletion `del placed[pos]` (deleting an absent position is
a no-op, so the presence checks of the source are implicit). -/
def delCell (placed : Placed) (pos : Nat × Nat) : Placed :=
  placed.filter (fun e => e.1 != pos)

/-- Is the position the excluded cell of a cascade re-scan (`none` for
the top-level scan of `remove_course_from_schedule`, which excludes
nothing). -/
def cellExcluded (exc : Option (Nat × Nat)) (p : Nat × Nat) : Bool :=
  match exc with
  | none => false
  | some q => p == q

/-- The `has_other_sessions` check of the removal scans: does the partner
course occupy a cell other than the scanned one (and other than the
excluded cell, in a cascade re-scan). -/
def partnerElsewhere (placed : Placed) (exc : Option (Nat × Nat)) (pos : Nat × Nat)
    (other : String) : Bool :=
  placed.any (fun en2 => !cellExcluded exc en2.1 && en2.1 != pos && cellHasCourse other en2.2)

/-- The shared scan of `remove_course_from_schedule` and
`_remove_course_sessions_except_cell` over a snapshot of the store:
collect, in snapshot order, the dual cells holding the key whose partner
occupies some other cell (to_convert, kept with their content, which
stands for the widget identity) and the cells to delete (single cells of
the key, and dual cells of the key whose partner occupies no other
cell). -/
def scanRemoveGo (placed : Placed) (key : String) (exc : Option (Nat × Nat)) :
    List ((Nat × Nat) × CellInfo) →
    List ((Nat × Nat) × String × String × Nat) × List (Nat × Nat)
  | [] => ([], [])
  | en :: rest =>
    let acc := scanRemoveGo placed key exc rest
    if cellExcluded exc en.1 then acc
    else
      match en.2 with
      | .dual o e r =>
        if o == key || e == key then
          if partnerElsewhere placed exc en.1 (if o == key then e else o) then
            ((en.1, o, e, r) :: acc.1, acc.2)
          else (acc.1, en.1 :: acc.2)
        else acc
      | .single c _ => if c == key then (acc.1, en.1 :: acc.2) else acc

def scanRemove (placed : Placed) (key : String) (exc : Option (Nat × Nat)) :
    List ((Nat × Nat) × String × String × Nat) × List (Nat × Nat) :=
  scanRemoveGo placed key exc placed

mutual
/-- Source `remove_course_from_dual_widget`: locate the dual widget (the
cell must still hold exactly this dual entry, else the position scan of
the source finds nothing and the call is a no-op), replace it with a
single cell of the partner course re-inserted at the dictionary tail (or
clear the cell outright when the partner is missing from the catalog,
without cascading), and then cascade `_remove_course_sessions_except_cell`
on the removed key.  The recursion is fuel-bounded; every conversion
strictly decreases the number of cells holding the key, so the fuel
chosen by the entry point below never runs out on the source states. -/
def removeFromDual (courses : Catalog) (key : String) :
    Nat → Placed → (Nat × Nat) → String → String → Nat → Placed
  | 0, placed, _, _, _, _ => placed
  | fuel + 1, placed, pos, o, e, r =>
    if lookupCell placed pos == some (CellInfo.dual o e r) then
      match lookupCourse courses (if o == key then e else o) with
      | none => delCell placed pos
      | some _ =>
        removeExceptCell courses key fuel
          (delCell placed pos ++ [(pos, CellInfo.single (if o == key then e else o) r)]) pos
    else placed

/-- Source `_remove_course_sessions_except_cell`: re-scan the store,
skipping the just-converted cell (also in the partner-occupancy check),
convert the remaining dual cells of the key whose partner still occupies
some other cell, and delete the rest. -/
def removeExceptCell (courses : Catalog) (key : String) :
    Nat → Placed → (Nat × Nat) → Placed
  | 0, placed, _ => placed
  | fuel + 1, placed, exc =>
    let scan := scanRemove placed key (some exc)
    let placed2 := scan.1.foldl
      (fun p c => removeFromDual courses key fuel p c.1 c.2.1 c.2.2.1 c.2.2.2) placed
    scan.2.foldl delCell placed2
end

/-- Source `remove_course_from_schedule`: scan a snapshot of the store,
convert each collected dual cell of the key (each conversion cascading as
above over the mutated store), then delete the collected removal cells
still present. -/
def remove_course_from_schedule (courses : Catalog) (key : String)
    (placed : Placed) : Placed :=
  let scan := scanRemove placed key none
  let placed2 := scan.1.foldl
    (fun p c => removeFromDual courses key (2 * placed.length + 2) p
      c.1 c.2.1 c.2.2.1 c.2.2.2) placed
  scan.2.foldl delCell placed2

/-- Two-course catalog used for the C2 scenarios. -/
def C2cat : Catalog := [("A", ⟨"A", "A1", []⟩), ("B", ⟨"B", "B1", []⟩)]

/-- C2 counterexample, two scenarios.  Removing A from a store whose only
cell is the dual (A, B) deletes the whole cell, since B occupies no other
cell: the Dual cell is emptied in one step and the occupancy of B is
lost, where the claim requires a demotion to Single B.  And removing A
from a store of two dual (A, B) cells demotes only the first: converting
it cascades `_remove_course_sessions_except_cell`, whose partner check
excludes the converted cell, so the second dual cell is deleted outright
instead of demoted. -/
theorem C2_counterexample :
    remove_course_from_schedule C2cat "A" [((2, 0), CellInfo.dual "A" "B" 2)] = [] ∧
    remove_course_from_schedule C2cat "A" [((2, 0), CellInfo.dual "A" "B" 2)] ≠
      [((2, 0), CellInfo.single "B" 2)] ∧
    remove_course_from_schedule C2cat "A"
        [((2, 0), CellInfo.dual "A" "B" 2), ((5, 0), CellInfo.dual "A" "B" 2)] =
      [((2, 0), CellInfo.single "B" 2)] := by
  refine ⟨by decide, by decide, by decide⟩

/-- The canonical day list of `config.get_days` (column axis of the
grid). -/
def DAYS : List String :=
  ["شنبه", "یکشنبه", "دوشنبه", "سه‌شنبه", "چهارشنبه", "پنج‌شنبه", "جمعه"]

/-- The extended slot grid of `config.generate_extended_time_slots`:
07:00 to 19:00 inclusive in 30-minute steps (25 slots). -/
def EXTENDED_TIME_SLOTS : List HM :=
  (List.range 25).map (fun i => ⟨(7 * 60 + 30 * i) / 60, (7 * 60 + 30 * i) % 60⟩)

/-- Python `list.index`, `none` standing for the ValueError raised when
the element is absent. -/
def listIndexOf {α : Type} [BEq α] : List α → α → Option Nat
  | [], _ => none
  | x :: xs, a => if x == a then some 0 else (listIndexOf xs a).map (· + 1)

/-- Resolution of one session to a grid placement
(start row, column, span, session) in `_add_course_internal`: a session
whose day is not canonical is skipped with `continue`, and a start or end
time absent from the slot grid raises ValueError, caught with a warning
and a `continue`; both are modelled as `none`. -/
def resolveSession (sess : Session) : Option (Nat × Nat × Nat × Session) :=
  match listIndexOf DAYS sess.day with
  | none => none
  | some col =>
    match listIndexOf EXTENDED_TIME_SLOTS sess.start,
          listIndexOf EXTENDED_TIME_SLOTS sess.stop with
    | some srow, some erow => some (srow, col, max 1 (erow - srow), sess)
    | _, _ => none

/-- The `placements` list `_add_course_internal` builds over the course
schedule. -/
def resolvePlacements (course : Course) : List (Nat × Nat × Nat × Session) :=
  course.schedule.filterMap resolveSession

/-- One detected conflict `((srow, col), (prow, pcol), key, name)`. -/
structure ConflictRec where
  newPos : Nat × Nat
  oldPos : Nat × Nat
  key : String
  name : String
deriving DecidableEq, Repr

/-- One compatible-slot record of `compatible_slots`: the cell, the
existing course key and session, the new session and the span. -/
structure CompatRec where
  pos : Nat × Nat
  existingKey : String
  existingSess : Session
  newSess : Session
  span : Nat
deriving DecidableEq, Repr

/-- Outcome of the inner scan over the existing course schedule
(`for existing_sess in existing_course['schedule']`): no session matched;
a ValueError on the slot lookup (recorded as matched, nothing reported);
a parity-compatible overlapping session; a conflicting overlap. -/
inductive SessScanResult where
  | nothingFound
  | errorSkip
  | compat (s2 : Session)
  | conflict
deriving DecidableEq, Repr

def findMatchingSession (sess : Session) (srow span : Nat) :
    List Session → SessScanResult
  | [] => .nothingFound
  | s2 :: rest =>
    if s2.day != sess.day then findMatchingSession sess srow span rest
    else
      match listIndexOf EXTENDED_TIME_SLOTS s2.start,
            listIndexOf EXTENDED_TIME_SLOTS s2.stop with
      | some estart, some eend =>
        if !(decide (srow + span ≤ estart) || decide (eend ≤ srow)) then
          (if parityCompatible sess.parity s2.parity then .compat s2 else .conflict)
        else findMatchingSession sess srow span rest
      | _, _ => .errorSkip

/-- The localized unknown-course sentinel
(`translator.t('messages.unknown')`); its concrete value never matters to
the claims. -/
def unknownName : String := "unknown"

/-- Whitespace for the Python `str.strip` on course names. -/
def isSpaceChar (c : Char) : Bool :=
  c == ' ' || c == '\t' || c == '\n' || c == '\r'

def strTrim (s : String) : String :=
  ⟨((s.toList.dropWhile isSpaceChar).reverse.dropWhile isSpaceChar).reverse⟩

/-- The display name the conflict scan records: the stripped course name,
or the unknown sentinel when it is empty. -/
def displayName (c : Course) : String :=
  if strTrim c.name == "" then unknownName else strTrim c.name

/-- State of the conflict scan: the conflicts and the compatible
slots. -/
structure ScanState where
  conflicts : List ConflictRec
  compat : List CompatRec
deriving DecidableEq, Repr

def compatHasPos (l : List CompatRec) (pos : Nat × Nat) : Bool :=
  l.any (fun cr => cr.pos == pos)

/-- What the conflict scan does with one cell of the store for one
placement of the candidate (`for (prow, pcol), info in self.placed`):
skip other columns, skip cells of the candidate itself, skip cells whose
rows do not overlap; otherwise look at the existing course (a dual cell
contributes its first key), skipping silently when it is missing from the
catalog, and classify the overlap through its session list. -/
def scanEntry (courses : Catalog) (key : String)
    (pl : Nat × Nat × Nat × Session) (st : ScanState)
    (entry : (Nat × Nat) × CellInfo) : ScanState :=
  let (srow, col, span, sess) := pl
  let ((prow, pcol), info) := entry
  if pcol != col then st
  else if cellHasCourse key info then st
  else if !(decide (srow + span ≤ prow) || decide (prow + cellRows info ≤ srow)) then
    let existingKey := match info with
      | .single c _ => c
      | .dual o _ _ => o
    match lookupCourse courses existingKey with
    | none => st
    | some ec =>
      match findMatchingSession sess srow span ec.schedule with
      | .errorSkip => st
      | .compat s2 =>
        if !(compatHasPos st.compat (srow, col)) && existingKey != key then
          { st with compat := st.compat ++ [⟨(srow, col), existingKey, s2, sess, span⟩] }
        else st
      | .conflict =>
        { st with conflicts := st.conflicts ++
            [⟨(srow, col), (prow, pcol), existingKey, displayName ec⟩] }
      | .nothingFound =>
        if displayName ec != unknownName then
          { st with conflicts := st.conflicts ++
              [⟨(srow, col), (prow, pcol), existingKey, displayName ec⟩] }
        else st
  else st

/-- Exact-span session match of the table-widget scan (phase one of the
conflict scan): the first session of the existing course on the same day
whose slot indices equal the placement origin and end exactly; a slot
lookup failure just moves on to the next session here. -/
def findExactSession (sess : Session) (srow span : Nat) : List Session → Option Session
  | [] => none
  | s2 :: rest =>
    if s2.day == sess.day then
      match listIndexOf EXTENDED_TIME_SLOTS s2.start,
            listIndexOf EXTENDED_TIME_SLOTS s2.stop with
      | some estart, some eend =>
        if estart == srow && eend == srow + span then some s2
        else findExactSession sess srow span rest
      | _, _ => findExactSession sess srow span rest
    else findExactSession sess srow span rest

/-- The combined display name a full dual cell contributes as a conflict:
built from the names of its two courses (the widget stores the catalog
records of both members, read here from the catalog). -/
def dualConflictName (courses : Catalog) (o e : String) : String :=
  let n1 := ((lookupCourse courses o).map (·.name)).getD ""
  let n2 := ((lookupCourse courses e).map (·.name)).getD ""
  if n1 != "" && n2 != "" then n1 ++ " / " ++ n2
  else if n1 != "" then n1
  else if n2 != "" then n2
  else unknownName

/-- Compatible-slot insertion of the table scan (dictionary assignment:
replaces any existing record at the cell). -/
def setCompatRec (l : List CompatRec) (cr : CompatRec) : List CompatRec :=
  if l.any (fun c => c.pos == cr.pos) then
    l.map (fun c => if c.pos == cr.pos then cr else c)
  else l ++ [cr]

/-- Phase one of the conflict scan of `_add_course_internal`: for each
placement, inspect the widget sitting at the placement origin (the table
mirrors the `placed` dictionary, one widget per entry at its origin
cell).  A dual widget not containing the candidate is recorded as a
conflict under the marker key `dual_widget`; a single widget of another
course seeds a compatible slot when that course has an exact-span session
of complementary parity, and is a conflict otherwise (with the unknown
sentinel as name when the course is missing from the catalog). -/
def scanTable (courses : Catalog) (key : String) (placed : Placed)
    (st : ScanState) (pl : Nat × Nat × Nat × Session) : ScanState :=
  let (srow, col, span, sess) := pl
  match lookupCell placed (srow, col) with
  | none => st
  | some (CellInfo.dual o e _) =>
    if o == key || e == key then st
    else
      { st with conflicts := st.conflicts ++
          [⟨(srow, col), (srow, col), "dual_widget", dualConflictName courses o e⟩] }
  | some (CellInfo.single c _) =>
    if c == key then st
    else
      match lookupCourse courses c with
      | none =>
        { st with conflicts := st.conflicts ++
            [⟨(srow, col), (srow, col), c, unknownName⟩] }
      | some ec =>
        match findExactSession sess srow span ec.schedule with
        | some s2 =>
          if parityCompatible sess.parity s2.parity then
            { st with compat := setCompatRec st.compat ⟨(srow, col), c, s2, sess, span⟩ }
          else
            { st with conflicts := st.conflicts ++
                [⟨(srow, col), (srow, col), c, displayName ec⟩] }
        | none =>
          { st with conflicts := st.conflicts ++
              [⟨(srow, col), (srow, col), c, displayName ec⟩] }

/-- The conflict scan of `_add_course_internal` over the store: phase one
walks the table widgets at the placement origins, then phase two walks
the `placed` dictionary; a placement whose cell already acquired a
compatible-slot record (in either phase) is skipped entirely by phase
two. -/
def scanConflicts (courses : Catalog) (key : String)
    (placements : List (Nat × Nat × Nat × Session)) (placed : Placed) : ScanState :=
  let st1 := placements.foldl (scanTable courses key placed) ⟨[], []⟩
  placements.foldl (fun st pl =>
    if compatHasPos st.compat (pl.1, pl.2.1) then st
    else placed.foldl (scanEntry courses key pl) st) st1

/-- Source `get_course_priority`: the rank stored in the auto-select
list, 999 (lowest priority) when the key is absent. -/
def get_course_priority : List (String × Nat) → String → Nat
  | [], _ => 999
  | e :: rest, key => if e.1 == key then e.2 else get_course_priority rest key

/-- Name resolution for one conflict record (the dedup loop of the
priority resolution): an empty or unknown name is replaced by the catalog
name of the conflicting key; a conflict still lacking a valid name is
skipped without being marked processed. -/
def resolveConflictName (courses : Catalog) (ckey cname : String) : Option String :=
  if cname == "" || cname == unknownName then
    let n := match lookupCourse courses ckey with
      | none => cname
      | some c => c.name
    if n == "" || n == unknownName then none else some n
  else some cname

/-- State of the priority-resolution loop: processed conflict keys, the
higher-priority blockers (key, name, rank), and the distinct conflict
names in encounter order (the source keeps the name set and the name
list in lockstep, so one list serves as both). -/
structure ConflictAnalysis where
  keysSeen : List String
  higher : List (String × String × Nat)
  details : List String
deriving DecidableEq, Repr

def analyzeStep (courses : Catalog) (prio : List (String × Nat)) (curPrio : Nat)
    (st : ConflictAnalysis) (conf : ConflictRec) : ConflictAnalysis :=
  if st.keysSeen.contains conf.key then st
  else
    match resolveConflictName courses conf.key conf.name with
    | none => st
    | some cname =>
      let p := get_course_priority prio conf.key
      ⟨st.keysSeen ++ [conf.key],
       if p < curPrio then st.higher ++ [(conf.key, cname, p)] else st.higher,
       if st.details.contains cname then st.details else st.details ++ [cname]⟩

def analyzeConflicts (courses : Catalog) (prio : List (String × Nat)) (curPrio : Nat)
    (conflicts : List ConflictRec) : ConflictAnalysis :=
  conflicts.foldl (analyzeStep courses prio curPrio) ⟨[], [], []⟩

/-- The three-way answer of the eviction confirmation dialog. -/
inductive UserChoice where
  | yes
  | no
  | cancel
deriving DecidableEq, Repr

/-- Dictionary assignment `placed[pos] = info`: replace in place, or
append when the position is new. -/
def setCell (placed : Placed) (pos : Nat × Nat) (info : CellInfo) : Placed :=
  if placed.any (fun e => e.1 == pos) then
    placed.map (fun e => if e.1 == pos then (pos, info) else e)
  else placed ++ [(pos, info)]

def compatLookup : List CompatRec → (Nat × Nat) → Option CompatRec
  | [], _ => none
  | cr :: rest, pos => if cr.pos == pos then some cr else compatLookup rest pos

/-- Commit of one placement: a compatible slot becomes a dual cell whose
odd half is whichever of the new and existing course carries the odd
parity marker (the several widget-handling branches of the source all
assign the keys this way, since a compatible pair is an exact
complement); any other placement writes a single cell of the candidate. -/
def commitPlacement (key : String) (compat : List CompatRec) (placed : Placed)
    (pl : Nat × Nat × Nat × Session) : Placed :=
  let (srow, col, span, sess) := pl
  match compatLookup compat (srow, col) with
  | some cr =>
    let oddKey := if sess.parity == "ف" then key else cr.existingKey
    let evenKey := if sess.parity == "ف" then cr.existingKey else key
    delCell placed (srow, col) ++ [((srow, col), CellInfo.dual oddKey evenKey span)]
  | none => setCell placed (srow, col) (CellInfo.single key span)

/-- The set of conflicting course keys removed on a confirmed eviction
(valid keys only; Python builds a set, whose iteration order is
unspecified, modelled as dedup in list order). -/
def evictionKeys (conflicts : List ConflictRec) : List String :=
  ((conflicts.map (·.key)).filter
    (fun k => k != "dual_widget" && k != "unknown")).dedup

/-- Store-level outcome of `_add_course_internal`. -/
inductive AddOutcome where
  | missingCourse
  | rejectedHigherPriority (blocking : List (String × String × Nat))
  | declined
  | skippedNotAsked
  | committed
deriving DecidableEq, Repr

/-- The store-level behaviour of `_add_course_internal` on a course
record, given the answer the user would give to the eviction dialog:
resolve the placements, scan for conflicts and compatible slots, then
either commit (no conflicts, or every conflict skipped as unknown),
reject on a higher-priority conflict before touching the store, stop on a
declined dialog, refuse silently when not asking, or evict the
conflicting courses and commit. -/
def add_course_with (courses : Catalog) (prio : List (String × Nat)) (key : String)
    (course : Course) (askOnConflict : Bool) (choice : UserChoice) (placed : Placed) :
    AddOutcome × Placed :=
  let placements := resolvePlacements course
  let st := scanConflicts courses key placements placed
  if st.conflicts.isEmpty then
    (.committed, placements.foldl (commitPlacement key st.compat) placed)
  else if askOnConflict then
    let ana := analyzeConflicts courses prio (get_course_priority prio key) st.conflicts
    if !ana.higher.isEmpty && !ana.details.isEmpty then
      (.rejectedHigherPriority ana.higher, placed)
    else if ana.details.isEmpty then
      (.committed, placements.foldl (commitPlacement key st.compat) placed)
    else
      match choice with
      | .cancel => (.declined, placed)
      | .no => (.declined, placed)
      | .yes =>
        let placed2 := (evictionKeys st.conflicts).foldl
          (fun p k => remove_course_from_schedule courses k p) placed
        (.committed, placements.foldl (commitPlacement key st.compat) placed2)
  else
    (.skippedNotAsked, placed)

/-- Source `_add_course_internal`: look the course up (a missing key is a
warning no-op), then run the placement pipeline. -/
def add_course_internal (courses : Catalog) (prio : List (String × Nat)) (key : String)
    (askOnConflict : Bool) (choice : UserChoice) (placed : Placed) :
    AddOutcome × Placed :=
  match lookupCourse courses key with
  | none => (.missingCourse, placed)
  | some course => add_course_with courses prio key course askOnConflict choice placed

/-- Course used for C7: its first session starts at 07:20, which is not
on the 30-minute slot grid, while its second session is valid. -/
def C7course : Course :=
  ⟨"X", "X1",
   [⟨"شنبه", ⟨7, 20⟩, ⟨9, 0⟩, ""⟩,
    ⟨"شنبه", ⟨8, 0⟩, ⟨9, 0⟩, ""⟩]⟩

def C7cat : Catalog := [("X", C7course)]

/-- C7 counterexample: a session whose time string does not map to a grid
slot does not abort the placement; the remaining valid session is still
committed and the store is mutated, where the claim requires the whole
placement to abort without mutation. -/
theorem C7_counterexample :
    resolveSession ⟨"شنبه", ⟨7, 20⟩, ⟨9, 0⟩, ""⟩ = none ∧
    (add_course_internal C7cat [] "X" true UserChoice.yes []).2 =
      [((2, 0), CellInfo.single "X" 2)] ∧
    (add_course_internal C7cat [] "X" true UserChoice.yes []).2 ≠ [] := by
  refine ⟨by decide, by decide, by decide⟩

/-- C7 amended: a session that fails to resolve (day not on the grid, or
a start or end time not on the slot grid) is skipped individually: the
placement behaves exactly as if that session were absent, and the
remaining sessions are still processed and committed; there is no
whole-course abort. -/
theorem C7_invalid_sessions_skipped (courses : Catalog) (prio : List (String × Nat))
    (key name code : String) (l1 l2 : List Session) (s : Session)
    (hs : resolveSession s = none) (ask : Bool) (choice : UserChoice) (placed : Placed) :
    add_course_with courses prio key ⟨name, code, l1 ++ s :: l2⟩ ask choice placed =
      add_course_with courses prio key ⟨name, code, l1 ++ l2⟩ ask choice placed := by
  have h : resolvePlacements ⟨name, code, l1 ++ s :: l2⟩ =
      resolvePlacements ⟨name, code, l1 ++ l2⟩ := by
    unfold resolvePlacements
    simp only [List.filterMap_append, List.filterMap_cons, hs]
  unfold add_course_with
  rw [h]

/-- Witness for the amended C7 at the concrete C7 course: dropping its
unresolvable 07:20 session leaves the placement result unchanged. -/
theorem C7_witness :
    add_course_with C7cat [] "X"
        ⟨"X", "X1", [⟨"شنبه", ⟨7, 20⟩, ⟨9, 0⟩, ""⟩, ⟨"شنبه", ⟨8, 0⟩, ⟨9, 0⟩, ""⟩]⟩
        true UserChoice.yes [] =
      add_course_with C7cat [] "X" ⟨"X", "X1", [⟨"شنبه", ⟨8, 0⟩, ⟨9, 0⟩, ""⟩]⟩
        true UserChoice.yes [] :=
  C7_invalid_sessions_skipped C7cat [] "X" "X" "X1" [] [⟨"شنبه", ⟨8, 0⟩, ⟨9, 0⟩, ""⟩]
    ⟨"شنبه", ⟨7, 20⟩, ⟨9, 0⟩, ""⟩ (by decide) true UserChoice.yes []

theorem analyzeStep_higher_suffix (courses : Catalog) (prio : List (String × Nat))
    (curPrio : Nat) (st : ConflictAnalysis) (conf : ConflictRec) :
    ∃ tail, (analyzeStep courses prio curPrio st conf).higher = st.higher ++ tail := by
  unfold analyzeStep
  by_cases hk : st.keysSeen.contains conf.key = true
  · rw [if_pos hk]; exact ⟨[], (List.append_nil _).symm⟩
  · rw [if_neg hk]
    cases resolveConflictName courses conf.key conf.name with
    | none => exact ⟨[], (List.append_nil _).symm⟩
    | some cname =>
      by_cases hp : get_course_priority prio conf.key < curPrio
      · exact ⟨[(conf.key, cname, get_course_priority prio conf.key)], by simp [hp]⟩
      · exact ⟨[], by simp [hp]⟩

theorem analyzeStep_details_suffix (courses : Catalog) (prio : List (String × Nat))
    (curPrio : Nat) (st : ConflictAnalysis) (conf : ConflictRec) :
    ∃ tail, (analyzeStep courses prio curPrio st conf).details = st.details ++ tail := by
  unfold analyzeStep
  by_cases hk : st.keysSeen.contains conf.key = true
  · rw [if_pos hk]; exact ⟨[], (List.append_nil _).symm⟩
  · rw [if_neg hk]
    cases resolveConflictName courses conf.key conf.name with
    | none => exact ⟨[], (List.append_nil _).symm⟩
    | some cname =>
      by_cases hd : st.details.contains cname = true
      · exact ⟨[], by dsimp only; rw [if_pos hd, List.append_nil]⟩
      · exact ⟨[cname], by dsimp only; rw [if_neg hd]⟩

theorem analyzeFold_higher_mono (courses : Catalog) (prio : List (String × Nat))
    (curPrio : Nat) :
    ∀ (conflicts : List ConflictRec) (st : ConflictAnalysis), st.higher ≠ [] →
      (conflicts.foldl (analyzeStep courses prio curPrio) st).higher ≠ [] := by
  intro conflicts
  induction conflicts with
  | nil => intro st h; exact h
  | cons c rest ih =>
    intro st h
    simp only [List.foldl_cons]
    refine ih _ ?_
    obtain ⟨tail, htail⟩ := analyzeStep_higher_suffix courses prio curPrio st c
    rw [htail]
    intro habs
    exact h (List.append_eq_nil.mp habs).1

/-- The key invariant of the dedup loop: a processed key whose rank beats
the candidate has already put an entry in the blocker list. -/
theorem analyzeStep_inv (courses : Catalog) (prio : List (String × Nat))
    (curPrio : Nat) (st : ConflictAnalysis) (conf : ConflictRec)
    (hinv : ∀ k ∈ st.keysSeen, get_course_priority prio k < curPrio → st.higher ≠ []) :
    ∀ k ∈ (analyzeStep courses prio curPrio st conf).keysSeen,
      get_course_priority prio k < curPrio →
      (analyzeStep courses prio curPrio st conf).higher ≠ [] := by
  intro k hk hp
  unfold analyzeStep at hk ⊢
  by_cases hck : st.keysSeen.contains conf.key = true
  · rw [if_pos hck] at hk ⊢
    exact hinv k hk hp
  · rw [if_neg hck] at hk ⊢
    cases hres : resolveConflictName courses conf.key conf.name with
    | none =>
      rw [hres] at hk
      exact hinv k hk hp
    | some cname =>
      rw [hres] at hk
      dsimp only at hk ⊢
      rcases List.mem_append.mp hk with hold | hnew
      · have hne := hinv k hold hp
        by_cases hlt : get_course_priority prio conf.key < curPrio
        · rw [if_pos hlt]
          intro habs
          exact hne (List.append_eq_nil.mp habs).1
        · rw [if_neg hlt]; exact hne
      · have hkc : k = conf.key := List.mem_singleton.mp hnew
        subst hkc
        rw [if_pos hp]
        intro habs
        exact List.cons_ne_nil _ _ (List.append_eq_nil.mp habs).2

theorem analyzeFold_higher_of_lower_rank (courses : Catalog) (prio : List (String × Nat))
    (curPrio : Nat) :
    ∀ (conflicts : List ConflictRec) (st : ConflictAnalysis),
      (∀ k ∈ st.keysSeen, get_course_priority prio k < curPrio → st.higher ≠ []) →
      (∃ c ∈ conflicts, (resolveConflictName courses c.key c.name).isSome = true ∧
        get_course_priority prio c.key < curPrio) →
      (conflicts.foldl (analyzeStep courses prio curPrio) st).higher ≠ [] := by
  intro conflicts
  induction conflicts with
  | nil =>
    intro st _ hex
    obtain ⟨c, hc, -⟩ := hex
    exact absurd hc (List.not_mem_nil c)
  | cons c rest ih =>
    intro st hinv hex
    simp only [List.foldl_cons]
    obtain ⟨w, hw, hwsome, hwlt⟩ := hex
    rcases List.mem_cons.mp hw with hwc | hwrest
    · subst hwc
      have hstep : (analyzeStep courses prio curPrio st w).higher ≠ [] := by
        unfold analyzeStep
        by_cases hck : st.keysSeen.contains w.key = true
        · rw [if_pos hck]
          exact hinv w.key (by simpa using hck) hwlt
        · rw [if_neg hck]
          cases hres : resolveConflictName courses w.key w.name with
          | none =>
            rw [hres] at hwsome
            exact Bool.noConfusion hwsome
          | some cname =>
            dsimp only
            rw [if_pos hwlt]
            intro habs
            exact List.cons_ne_nil _ _ (List.append_eq_nil.mp habs).2
      exact analyzeFold_higher_mono courses prio curPrio rest _ hstep
    · exact ih _ (analyzeStep_inv courses prio curPrio st c hinv) ⟨w, hwrest, hwsome, hwlt⟩

/-- Whenever the blocker list is nonempty, the distinct-name list is
nonempty too (the source appends a name whenever it records a blocker, or
the name was recorded before). -/
theorem analyzeStep_details_inv (courses : Catalog) (prio : List (String × Nat))
    (curPrio : Nat) (st : ConflictAnalysis) (conf : ConflictRec)
    (hinv : st.higher ≠ [] → st.details ≠ []) :
    (analyzeStep courses prio curPrio st conf).higher ≠ [] →
    (analyzeStep courses prio curPrio st conf).details ≠ [] := by
  intro hh
  unfold analyzeStep at hh ⊢
  by_cases hck : st.keysSeen.contains conf.key = true
  · rw [if_pos hck] at hh ⊢; exact hinv hh
  · rw [if_neg hck] at hh ⊢
    cases hres : resolveConflictName courses conf.key conf.name with
    | none =>
      rw [hres] at hh
      exact hinv hh
    | some cname =>
      rw [hres] at hh
      dsimp only at hh ⊢
      by_cases hd : st.details.contains cname = true
      · rw [if_pos hd]
        intro habs
        rw [habs] at hd
        cases hd
      · rw [if_neg hd]
        intro habs
        exact List.cons_ne_nil _ _ (List.append_eq_nil.mp habs).2

theorem analyzeFold_details (courses : Catalog) (prio : List (String × Nat))
    (curPrio : Nat) :
    ∀ (conflicts : List ConflictRec) (st : ConflictAnalysis),
      (st.higher ≠ [] → st.details ≠ []) →
      (conflicts.foldl (analyzeStep courses prio curPrio) st).higher ≠ [] →
      (conflicts.foldl (analyzeStep courses prio curPrio) st).details ≠ [] := by
  intro conflicts
  induction conflicts with
  | nil => intro st h; exact h
  | cons c rest ih =>
    intro st h
    simp only [List.foldl_cons]
    exact ih _ (analyzeStep_details_inv courses prio curPrio st c h)

/-- Every recorded blocker stems from a conflict record of the same key
and outranks the candidate. -/
theorem analyzeFold_higher_sound (courses : Catalog) (prio : List (String × Nat))
    (curPrio : Nat) :
    ∀ (conflicts : List ConflictRec) (st : ConflictAnalysis),
      ∀ b ∈ (conflicts.foldl (analyzeStep courses prio curPrio) st).higher,
        b ∈ st.higher ∨
        (get_course_priority prio b.1 < curPrio ∧ ∃ c ∈ conflicts, c.key = b.1) := by
  intro conflicts
  induction conflicts with
  | nil => intro st b hb; exact Or.inl hb
  | cons c rest ih =>
    intro st b hb
    simp only [List.foldl_cons] at hb
    rcases ih _ b hb with hstep | ⟨hlt, w, hw, hkey⟩
    · unfold analyzeStep at hstep
      by_cases hck : st.keysSeen.contains c.key = true
      · rw [if_pos hck] at hstep; exact Or.inl hstep
      · rw [if_neg hck] at hstep
        cases hres : resolveConflictName courses c.key c.name with
        | none =>
          rw [hres] at hstep
          exact Or.inl hstep
        | some cname =>
          rw [hres] at hstep
          dsimp only at hstep
          by_cases hlt : get_course_priority prio c.key < curPrio
          · rw [if_pos hlt] at hstep
            rcases List.mem_append.mp hstep with hold | hnew
            · exact Or.inl hold
            · have hb2 : b = (c.key, cname, get_course_priority prio c.key) :=
                List.mem_singleton.mp hnew
              refine Or.inr ⟨?_, c, List.mem_cons_self c rest, ?_⟩
              · rw [hb2]; exact hlt
              · rw [hb2]
          · rw [if_neg hlt] at hstep; exact Or.inl hstep
    · exact Or.inr ⟨hlt, w, List.mem_cons_of_mem c hw, hkey⟩

/-- C3: when some identifiable conflicting course outranks the candidate
(strictly lower rank number under the priority lookup, absent courses
ranking 999), the placement is rejected with the blocking courses, every
blocker outranks the candidate and stems from a detected conflict, and
the occupancy store is returned unchanged. -/
theorem C3_higher_priority_rejection (courses : Catalog) (prio : List (String × Nat))
    (key : String) (course : Course) (choice : UserChoice) (placed : Placed)
    (hvalid : ∀ c ∈ (scanConflicts courses key (resolvePlacements course) placed).conflicts,
      (resolveConflictName courses c.key c.name).isSome = true)
    (hlower : ∃ c ∈ (scanConflicts courses key (resolvePlacements course) placed).conflicts,
      get_course_priority prio c.key < get_course_priority prio key) :
    add_course_with courses prio key course true choice placed =
      (AddOutcome.rejectedHigherPriority
        (analyzeConflicts courses prio (get_course_priority prio key)
          (scanConflicts courses key (resolvePlacements course) placed).conflicts).higher,
       placed) ∧
    (analyzeConflicts courses prio (get_course_priority prio key)
      (scanConflicts courses key (resolvePlacements course) placed).conflicts).higher ≠ [] ∧
    (∀ b ∈ (analyzeConflicts courses prio (get_course_priority prio key)
        (scanConflicts courses key (resolvePlacements course) placed).conflicts).higher,
      get_course_priority prio b.1 < get_course_priority prio key ∧
      ∃ c ∈ (scanConflicts courses key (resolvePlacements course) placed).conflicts,
        c.key = b.1) := by
  obtain ⟨w, hw, hwlt⟩ := hlower
  have hhigher :
      (analyzeConflicts courses prio (get_course_priority prio key)
        (scanConflicts courses key (resolvePlacements course) placed).conflicts).higher ≠ [] :=
    analyzeFold_higher_of_lower_rank courses prio (get_course_priority prio key) _ _
      (by intro k hk _; cases hk) ⟨w, hw, hvalid w hw, hwlt⟩
  have hdetails :
      (analyzeConflicts courses prio (get_course_priority prio key)
        (scanConflicts courses key (resolvePlacements course) placed).conflicts).details ≠ [] :=
    analyzeFold_details courses prio (get_course_priority prio key) _ _
      (by intro h; exact absurd rfl h) hhigher
  have hsound := analyzeFold_higher_sound courses prio (get_course_priority prio key)
    (scanConflicts courses key (resolvePlacements course) placed).conflicts ⟨[], [], []⟩
  refine ⟨?_, hhigher, ?_⟩
  · have hne : (scanConflicts courses key (resolvePlacements course) placed).conflicts ≠ [] := by
      intro habs
      rw [habs] at hw
      exact List.not_mem_nil w hw
    have hempty :
        (scanConflicts courses key (resolvePlacements course) placed).conflicts.isEmpty
          = false := by
      rw [List.isEmpty_eq_false]
      exact hne
    have hh2 :
        (!(analyzeConflicts courses prio (get_course_priority prio key)
          (scanConflicts courses key (resolvePlacements course) placed).conflicts).higher.isEmpty)
          = true := by
      rw [Bool.not_eq_true', List.isEmpty_eq_false]
      exact hhigher
    have hd2 :
        (!(analyzeConflicts courses prio (get_course_priority prio key)
          (scanConflicts courses key (resolvePlacements course) placed).conflicts).details.isEmpty)
          = true := by
      rw [Bool.not_eq_true', List.isEmpty_eq_false]
      exact hdetails
    simp only [add_course_with, hempty, Bool.false_eq_true, if_false, if_true, hh2, hd2,
      Bool.and_self]
  · intro b hb
    rcases hsound b hb with habs | hok
    · exact absurd habs (List.not_mem_nil b)
    · exact hok

/-- Catalog, priority list and store for the C3 witness: course B (rank
1) already occupies 08:00-10:00; the candidate A (rank 2) overlaps it. -/
def C3cat : Catalog :=
  [("A", ⟨"A", "A1", [⟨"شنبه", ⟨8, 0⟩, ⟨9, 0⟩, ""⟩]⟩),
   ("B", ⟨"B", "B1", [⟨"شنبه", ⟨8, 0⟩, ⟨10, 0⟩, ""⟩]⟩)]

def C3prio : List (String × Nat) := [("B", 1), ("A", 2)]

def C3placed : Placed := [((2, 0), CellInfo.single "B" 4)]

/-- Witness for C3: the placement of A is rejected with the blockers the
analysis reports, and the store is returned untouched. -/
theorem C3_witness :
    add_course_with C3cat C3prio "A"
        ⟨"A", "A1", [⟨"شنبه", ⟨8, 0⟩, ⟨9, 0⟩, ""⟩]⟩ true UserChoice.no C3placed =
      (AddOutcome.rejectedHigherPriority
        (analyzeConflicts C3cat C3prio (get_course_priority C3prio "A")
          (scanConflicts C3cat "A"
            (resolvePlacements ⟨"A", "A1", [⟨"شنبه", ⟨8, 0⟩, ⟨9, 0⟩, ""⟩]⟩)
            C3placed).conflicts).higher,
       C3placed) :=
  (C3_higher_priority_rejection C3cat C3prio "A"
    ⟨"A", "A1", [⟨"شنبه", ⟨8, 0⟩, ⟨9, 0⟩, ""⟩]⟩ UserChoice.no C3placed
    (by decide) (by decide)).1

/-- Catalog and priority list for the C3 counterexample: G is even-week
9-11, A is odd-week 8-10 (rank 1), C is odd-week 9-11 (rank 2); A and C
truly conflict (same day, same parity, overlapping times). -/
def C3Rcat : Catalog :=
  [("G", ⟨"G", "G1", [⟨"شنبه", ⟨9, 0⟩, ⟨11, 0⟩, "ز"⟩]⟩),
   ("A", ⟨"A", "A1", [⟨"شنبه", ⟨8, 0⟩, ⟨10, 0⟩, "ف"⟩]⟩),
   ("C", ⟨"C", "C1", [⟨"شنبه", ⟨9, 0⟩, ⟨11, 0⟩, "ف"⟩]⟩)]

def C3Rprio : List (String × Nat) := [("A", 1), ("C", 2)]

/-- The store reached by adding G and then A to an empty grid: a single G
cell at 9:00 plus a dual (A, G) cell at 8:00. -/
def C3Rstore : Placed :=
  (add_course_internal C3Rcat C3Rprio "A" true UserChoice.yes
    (add_course_internal C3Rcat C3Rprio "G" true UserChoice.yes []).2).2

/-- C3 counterexample: on the reachable store above, the candidate C
conflicts with the already-placed A, which outranks it (rank 1 versus 2);
the claim then requires a rejection with no mutation.  But the table scan
finds the single G widget at the origin of the C placement, seeds it as a
parity-compatible slot, and the conflict scan skips that placement
entirely, so no conflict is recorded: the placement commits and the store
is mutated (without the user even being asked). -/
theorem C3_counterexample :
    schedules_conflict (schedOf C3Rcat "C") (schedOf C3Rcat "A") = true ∧
    get_course_priority C3Rprio "A" < get_course_priority C3Rprio "C" ∧
    cellHasCourse "A" ((C3Rstore.get? 1).map Prod.snd |>.getD (CellInfo.single "" 0)) = true ∧
    (add_course_internal C3Rcat C3Rprio "C" true UserChoice.no C3Rstore).1 =
      AddOutcome.committed ∧
    (add_course_internal C3Rcat C3Rprio "C" true UserChoice.no C3Rstore).2 ≠ C3Rstore := by
  refine ⟨by decide, by decide, by decide, by decide, by decide⟩

theorem lookupCell_mem :
    ∀ (placed : Placed) (pos : Nat × Nat) (i : CellInfo),
      lookupCell placed pos = some i → (pos, i) ∈ placed := by
  intro placed
  induction placed with
  | nil => intro pos i h; cases h
  | cons en rest ih =>
    intro pos i h
    unfold lookupCell at h
    by_cases hp : (en.1 == pos) = true
    · rw [if_pos hp] at h
      have h1 : en.1 = pos := by simpa using hp
      have h2 : en.2 = i := by simpa using h
      exact List.mem_cons.mpr (Or.inl (by rw [← h1, ← h2]))
    · rw [if_neg hp] at h
      exact List.mem_cons_of_mem en (ih pos i h)

theorem lookupCell_of_nodup :
    ∀ (placed : Placed) (pos : Nat × Nat) (i : CellInfo),
      (placed.map Prod.fst).Nodup → (pos, i) ∈ placed →
      lookupCell placed pos = some i := by
  intro placed
  induction placed with
  | nil => intro pos i _ h; cases h
  | cons en rest ih =>
    intro pos i hnd hmem
    have hnd2 := hnd
    rw [List.map_cons, List.nodup_cons] at hnd2
    rcases List.mem_cons.mp hmem with heq | htail
    · rw [← heq]
      unfold lookupCell
      simp
    · unfold lookupCell
      have hp : (en.1 == pos) = false := by
        have : pos ∈ rest.map Prod.fst := List.mem_map.mpr ⟨(pos, i), htail, rfl⟩
        have hne : en.1 ≠ pos := by
          intro habs
          exact hnd2.1 (habs ▸ this)
        simp [hne]
      rw [hp]
      simp only [Bool.false_eq_true, if_false]
      exact ih pos i hnd2.2 htail

theorem delCell_nodup (placed : Placed) (pos : Nat × Nat)
    (hnd : (placed.map Prod.fst).Nodup) :
    ((delCell placed pos).map Prod.fst).Nodup :=
  List.Nodup.sublist (List.Sublist.map Prod.fst (List.filter_sublist placed)) hnd

theorem mem_delCell_of_ne (placed : Placed) (pos : Nat × Nat)
    (q : Nat × Nat) (i : CellInfo) (hmem : (q, i) ∈ placed) (hne : q ≠ pos) :
    (q, i) ∈ delCell placed pos :=
  List.mem_filter.mpr ⟨hmem, by simpa using hne⟩

theorem not_mem_map_delCell (placed : Placed) (pos : Nat × Nat) :
    pos ∉ (delCell placed pos).map Prod.fst := by
  intro habs
  obtain ⟨en, hen, hfst⟩ := List.mem_map.mp habs
  have := List.mem_filter.mp hen
  rw [hfst] at this
  simp at this

theorem mem_of_mem_delCell (placed : Placed) (pos : Nat × Nat)
    (en : (Nat × Nat) × CellInfo) (h : en ∈ delCell placed pos) : en ∈ placed :=
  (List.mem_filter.mp h).1

theorem scanRemoveGo_convs_sound (placed : Placed) (key : String)
    (exc : Option (Nat × Nat)) :
    ∀ (l : List ((Nat × Nat) × CellInfo)) (c : (Nat × Nat) × String × String × Nat),
      c ∈ (scanRemoveGo placed key exc l).1 →
      (c.2.1 == key || c.2.2.1 == key) = true := by
  intro l
  induction l with
  | nil => intro c h; cases h
  | cons en rest ih =>
    intro c h
    unfold scanRemoveGo at h
    by_cases hexc : cellExcluded exc en.1 = true
    · rw [if_pos hexc] at h
      exact ih c h
    · rw [if_neg hexc] at h
      cases hinfo : en.2 with
      | single c2 r2 =>
        rw [hinfo] at h
        dsimp only at h
        by_cases hk : (c2 == key) = true
        · rw [if_pos hk] at h; exact ih c h
        · rw [if_neg hk] at h; exact ih c h
      | dual o e r =>
        rw [hinfo] at h
        dsimp only at h
        by_cases hk : (o == key || e == key) = true
        · rw [if_pos hk] at h
          by_cases hpe : partnerElsewhere placed exc en.1 (if o == key then e else o) = true
          · rw [if_pos hpe] at h
            rcases List.mem_cons.mp h with heq | htail
            · rw [heq]; exact hk
            · exact ih c htail
          · rw [if_neg hpe] at h
            exact ih c h
        · rw [if_neg hk] at h
          exact ih c h

theorem scanRemoveGo_rems_sound (placed : Placed) (key : String)
    (exc : Option (Nat × Nat)) :
    ∀ (l : List ((Nat × Nat) × CellInfo)) (q : Nat × Nat),
      q ∈ (scanRemoveGo placed key exc l).2 →
      ∃ i, (q, i) ∈ l ∧ cellHasCourse key i = true := by
  intro l
  induction l with
  | nil => intro q h; cases h
  | cons en rest ih =>
    intro q h
    unfold scanRemoveGo at h
    by_cases hexc : cellExcluded exc en.1 = true
    · rw [if_pos hexc] at h
      obtain ⟨i, hi, hk⟩ := ih q h
      exact ⟨i, List.mem_cons_of_mem en hi, hk⟩
    · rw [if_neg hexc] at h
      cases hinfo : en.2 with
      | single c2 r2 =>
        rw [hinfo] at h
        dsimp only at h
        by_cases hk : (c2 == key) = true
        · rw [if_pos hk] at h
          rcases List.mem_cons.mp h with heq | htail
          · exact ⟨CellInfo.single c2 r2,
              List.mem_cons.mpr (Or.inl (by rw [heq, ← hinfo])), hk⟩
          · obtain ⟨i, hi, hki⟩ := ih q htail
            exact ⟨i, List.mem_cons_of_mem en hi, hki⟩
        · rw [if_neg hk] at h
          obtain ⟨i, hi, hki⟩ := ih q h
          exact ⟨i, List.mem_cons_of_mem en hi, hki⟩
      | dual o e r =>
        rw [hinfo] at h
        dsimp only at h
        by_cases hk : (o == key || e == key) = true
        · rw [if_pos hk] at h
          by_cases hpe : partnerElsewhere placed exc en.1 (if o == key then e else o) = true
          · rw [if_pos hpe] at h
            obtain ⟨i, hi, hki⟩ := ih q h
            exact ⟨i, List.mem_cons_of_mem en hi, hki⟩
          · rw [if_neg hpe] at h
            rcases List.mem_cons.mp h with heq | htail
            · exact ⟨CellInfo.dual o e r,
                List.mem_cons.mpr (Or.inl (by rw [heq, ← hinfo])), hk⟩
            · obtain ⟨i, hi, hki⟩ := ih q htail
              exact ⟨i, List.mem_cons_of_mem en hi, hki⟩
        · rw [if_neg hk] at h
          obtain ⟨i, hi, hki⟩ := ih q h
          exact ⟨i, List.mem_cons_of_mem en hi, hki⟩

theorem scanRemoveGo_nil_of_keyless (placed : Placed) (key : String)
    (exc : Option (Nat × Nat)) :
    ∀ (l : List ((Nat × Nat) × CellInfo)),
      (∀ en ∈ l, cellExcluded exc en.1 = true ∨ cellHasCourse key en.2 = false) →
      scanRemoveGo placed key exc l = ([], []) := by
  intro l
  induction l with
  | nil => intro _; rfl
  | cons en rest ih =>
    intro hall
    have hrest := ih (fun x hx => hall x (List.mem_cons_of_mem en hx))
    unfold scanRemoveGo
    rw [hrest]
    rcases hall en (List.mem_cons_self en rest) with hexc | hkl
    · rw [if_pos hexc]
    · by_cases hexc : cellExcluded exc en.1 = true
      · rw [if_pos hexc]
      · rw [if_neg hexc]
        cases hinfo : en.2 with
        | single c2 r2 =>
          dsimp only
          rw [hinfo] at hkl
          have : (c2 == key) = false := by simpa [cellHasCourse] using hkl
          rw [this]
          simp
        | dual o e r =>
          dsimp only
          rw [hinfo] at hkl
          have : (o == key || e == key) = false := by simpa [cellHasCourse] using hkl
          rw [this]
          simp

theorem scanRemoveGo_cons (placed : Placed) (key : String) (exc : Option (Nat × Nat))
    (en : (Nat × Nat) × CellInfo) (rest : List ((Nat × Nat) × CellInfo)) :
    scanRemoveGo placed key exc (en :: rest) =
      if cellExcluded exc en.1 then scanRemoveGo placed key exc rest
      else match en.2 with
        | .dual o e r =>
          if o == key || e == key then
            if partnerElsewhere placed exc en.1 (if o == key then e else o) then
              ((en.1, o, e, r) :: (scanRemoveGo placed key exc rest).1,
               (scanRemoveGo placed key exc rest).2)
            else ((scanRemoveGo placed key exc rest).1,
                  en.1 :: (scanRemoveGo placed key exc rest).2)
          else scanRemoveGo placed key exc rest
        | .single c _ =>
          if c == key then
            ((scanRemoveGo placed key exc rest).1,
             en.1 :: (scanRemoveGo placed key exc rest).2)
          else scanRemoveGo placed key exc rest := rfl

theorem scanRemoveGo_append (placed : Placed) (key : String)
    (exc : Option (Nat × Nat)) :
    ∀ (l1 l2 : List ((Nat × Nat) × CellInfo)),
      scanRemoveGo placed key exc (l1 ++ l2) =
        ((scanRemoveGo placed key exc l1).1 ++ (scanRemoveGo placed key exc l2).1,
         (scanRemoveGo placed key exc l1).2 ++ (scanRemoveGo placed key exc l2).2) := by
  intro l1 l2
  induction l1 with
  | nil => simp [scanRemoveGo]
  | cons en rest ih =>
    rw [List.cons_append, scanRemoveGo_cons, scanRemoveGo_cons placed key exc en rest, ih]
    by_cases hexc : cellExcluded exc en.1 = true
    · rw [if_pos hexc, if_pos hexc]
    · rw [if_neg hexc, if_neg hexc]
      cases hinfo : en.2 with
      | single c2 r2 =>
        dsimp only
        by_cases hk : (c2 == key) = true
        · rw [if_pos hk, if_pos hk]
          simp
        · rw [if_neg hk, if_neg hk]
      | dual o e r =>
        dsimp only
        by_cases hk : (o == key || e == key) = true
        · rw [if_pos hk, if_pos hk]
          by_cases hpe : partnerElsewhere placed exc en.1 (if o == key then e else o) = true
          · rw [if_pos hpe, if_pos hpe]
            simp
          · rw [if_neg hpe, if_neg hpe]
            simp
        · rw [if_neg hk, if_neg hk]

theorem remsFold_preserves :
    ∀ (rems : List (Nat × Nat)) (placed : Placed),
      (placed.map Prod.fst).Nodup →
      (((rems.foldl delCell placed).map Prod.fst).Nodup ∧
       ∀ q i, (q, i) ∈ placed → q ∉ rems → (q, i) ∈ rems.foldl delCell placed) := by
  intro rems
  induction rems with
  | nil => intro placed hnd; exact ⟨hnd, fun q i hm _ => hm⟩
  | cons p rest ih =>
    intro placed hnd
    have hstep := ih (delCell placed p) (delCell_nodup placed p hnd)
    refine ⟨hstep.1, ?_⟩
    intro q i hm hnin
    have hq1 : q ≠ p := fun habs => hnin (habs ▸ List.mem_cons_self p rest)
    have hq2 : q ∉ rest := fun habs => hnin (List.mem_cons_of_mem p habs)
    exact hstep.2 q i (mem_delCell_of_ne placed p q i hm hq1) hq2

theorem convsFold_preserves (courses : Catalog) (key : String) (fuel : Nat)
    (IH : ∀ placed pos o e r, (placed.map Prod.fst).Nodup →
      (o == key || e == key) = true →
      (((removeFromDual courses key fuel placed pos o e r).map Prod.fst).Nodup ∧
       ∀ q i, (q, i) ∈ placed → cellHasCourse key i = false →
         (q, i) ∈ removeFromDual courses key fuel placed pos o e r)) :
    ∀ (convs : List ((Nat × Nat) × String × String × Nat)),
      (∀ c ∈ convs, (c.2.1 == key || c.2.2.1 == key) = true) →
      ∀ placed, (placed.map Prod.fst).Nodup →
        (((convs.foldl
            (fun p c => removeFromDual courses key fuel p c.1 c.2.1 c.2.2.1 c.2.2.2)
            placed).map Prod.fst).Nodup ∧
         ∀ q i, (q, i) ∈ placed → cellHasCourse key i = false →
           (q, i) ∈ convs.foldl
             (fun p c => removeFromDual courses key fuel p c.1 c.2.1 c.2.2.1 c.2.2.2)
             placed) := by
  intro convs
  induction convs with
  | nil => intro _ placed hnd; exact ⟨hnd, fun q i hm _ => hm⟩
  | cons c rest ih =>
    intro hall placed hnd
    have hc := hall c (List.mem_cons_self c rest)
    have h1 := IH placed c.1 c.2.1 c.2.2.1 c.2.2.2 hnd hc
    have hstep := ih (fun x hx => hall x (List.mem_cons_of_mem c hx))
      (removeFromDual courses key fuel placed c.1 c.2.1 c.2.2.1 c.2.2.2) h1.1
    refine ⟨hstep.1, ?_⟩
    intro q i hm hkl
    exact hstep.2 q i (h1.2 q i hm hkl) hkl

theorem remove_preserves (courses : Catalog) (key : String) :
    ∀ fuel : Nat,
      (∀ placed pos o e r, (placed.map Prod.fst).Nodup →
        (o == key || e == key) = true →
        (((removeFromDual courses key fuel placed pos o e r).map Prod.fst).Nodup ∧
         ∀ q i, (q, i) ∈ placed → cellHasCourse key i = false →
           (q, i) ∈ removeFromDual courses key fuel placed pos o e r)) ∧
      (∀ placed exc, (placed.map Prod.fst).Nodup →
        (((removeExceptCell courses key fuel placed exc).map Prod.fst).Nodup ∧
         ∀ q i, (q, i) ∈ placed → cellHasCourse key i = false →
           (q, i) ∈ removeExceptCell courses key fuel placed exc)) := by
  intro fuel
  induction fuel with
  | zero =>
    constructor
    · intro placed pos o e r hnd _
      exact ⟨hnd, fun q i hm _ => hm⟩
    · intro placed exc hnd
      exact ⟨hnd, fun q i hm _ => hm⟩
  | succ fuel ih =>
    constructor
    · intro placed pos o e r hnd hkey
      have hgoal : removeFromDual courses key (fuel + 1) placed pos o e r =
          (if lookupCell placed pos == some (CellInfo.dual o e r) then
            match lookupCourse courses (if o == key then e else o) with
            | none => delCell placed pos
            | some _ =>
              removeExceptCell courses key fuel
                (delCell placed pos ++
                  [(pos, CellInfo.single (if o == key then e else o) r)]) pos
          else placed) := rfl
      rw [hgoal]
      by_cases hlk : (lookupCell placed pos == some (CellInfo.dual o e r)) = true
      · rw [if_pos hlk]
        have hlk2 : lookupCell placed pos = some (CellInfo.dual o e r) := by
          simpa using hlk
        have hqne : ∀ q i, (q, i) ∈ placed → cellHasCourse key i = false → q ≠ pos := by
          intro q i hm hkl habs
          subst habs
          have hthis := lookupCell_of_nodup placed q i hnd hm
          rw [hlk2] at hthis
          have hii := Option.some.inj hthis
          have hkey2 : cellHasCourse key i = true := by
            rw [← hii]
            exact hkey
          simp [hkl] at hkey2
        cases hcourse : lookupCourse courses (if o == key then e else o) with
        | none =>
          dsimp only
          refine ⟨delCell_nodup placed pos hnd, ?_⟩
          intro q i hm hkl
          exact mem_delCell_of_ne placed pos q i hm (hqne q i hm hkl)
        | some cobj =>
          dsimp only
          have hnd2 : (((delCell placed pos ++
              [(pos, CellInfo.single (if o == key then e else o) r)]).map
                Prod.fst)).Nodup := by
            rw [List.map_append, List.nodup_append]
            refine ⟨delCell_nodup placed pos hnd, by simp, ?_⟩
            intro a ha hb
            have hab : a = pos := by simpa using hb
            rw [hab] at ha
            exact not_mem_map_delCell placed pos ha
          have hrest := ih.2 (delCell placed pos ++
            [(pos, CellInfo.single (if o == key then e else o) r)]) pos hnd2
          refine ⟨hrest.1, ?_⟩
          intro q i hm hkl
          exact hrest.2 q i
            (List.mem_append_left _
              (mem_delCell_of_ne placed pos q i hm (hqne q i hm hkl))) hkl
      · rw [if_neg hlk]
        exact ⟨hnd, fun q i hm _ => hm⟩
    · intro placed exc hnd
      have hgoal : removeExceptCell courses key (fuel + 1) placed exc =
          (scanRemove placed key (some exc)).2.foldl delCell
            ((scanRemove placed key (some exc)).1.foldl
              (fun p c => removeFromDual courses key fuel p c.1 c.2.1 c.2.2.1 c.2.2.2)
              placed) := rfl
      rw [hgoal]
      have hconv : ∀ c ∈ (scanRemove placed key (some exc)).1,
          (c.2.1 == key || c.2.2.1 == key) = true :=
        fun c hc => scanRemoveGo_convs_sound placed key (some exc) placed c hc
      have hfold := convsFold_preserves courses key fuel ih.1
        (scanRemove placed key (some exc)).1 hconv placed hnd
      have hrems := remsFold_preserves (scanRemove placed key (some exc)).2 _ hfold.1
      refine ⟨hrems.1, ?_⟩
      intro q i hm hkl
      have hqnot : q ∉ (scanRemove placed key (some exc)).2 := by
        intro habs
        obtain ⟨i2, hi2, hk2⟩ := scanRemoveGo_rems_sound placed key (some exc) placed q habs
        have h1 := lookupCell_of_nodup placed q i hnd hm
        have h2 := lookupCell_of_nodup placed q i2 hnd hi2
        rw [h1] at h2
        have hii := Option.some.inj h2
        rw [← hii] at hk2
        simp [hkl] at hk2
      exact hrems.2 q i (hfold.2 q i hm hkl) hqnot

theorem scanRemove_unique_dual (placed : Placed) (key : String)
    (pos : Nat × Nat) (o e : String) (r : Nat)
    (hnd : (placed.map Prod.fst).Nodup)
    (hmem : (pos, CellInfo.dual o e r) ∈ placed)
    (hkeyc : (o == key || e == key) = true)
    (huniq : ∀ en ∈ placed, cellHasCourse key en.2 = true →
      en = (pos, CellInfo.dual o e r)) :
    scanRemove placed key none =
      if partnerElsewhere placed none pos (if o == key then e else o) then
        ([(pos, o, e, r)], [])
      else ([], [pos]) := by
  obtain ⟨l1, l2, hsplit⟩ := List.append_of_mem hmem
  have hndspl : ((l1 ++ (pos, CellInfo.dual o e r) :: l2).map Prod.fst).Nodup := by
    rw [← hsplit]
    exact hnd
  rw [List.map_append, List.map_cons] at hndspl
  have hposl1 : pos ∉ l1.map Prod.fst := fun habs =>
    List.disjoint_of_nodup_append hndspl habs (List.mem_cons_self _ _)
  have hposl2 : pos ∉ l2.map Prod.fst := by
    have h := (List.nodup_append.mp hndspl).2.1
    rw [List.nodup_cons] at h
    exact h.1
  have h1 : ∀ en ∈ l1, cellExcluded none en.1 = true ∨ cellHasCourse key en.2 = false := by
    intro en hen
    right
    by_contra habs
    rw [Bool.not_eq_false] at habs
    have heq := huniq en (by rw [hsplit]; exact List.mem_append_left _ hen) habs
    refine hposl1 (List.mem_map.mpr ⟨en, hen, ?_⟩)
    rw [heq]
  have h2 : ∀ en ∈ l2, cellExcluded none en.1 = true ∨ cellHasCourse key en.2 = false := by
    intro en hen
    right
    by_contra habs
    rw [Bool.not_eq_false] at habs
    have heq := huniq en (by
      rw [hsplit]
      exact List.mem_append_right _ (List.mem_cons_of_mem _ hen)) habs
    refine hposl2 (List.mem_map.mpr ⟨en, hen, ?_⟩)
    rw [heq]
  have hrfl : scanRemove placed key none = scanRemoveGo placed key none placed := rfl
  rw [hrfl, hsplit]
  rw [scanRemoveGo_append, scanRemoveGo_nil_of_keyless _ _ _ l1 h1,
    scanRemoveGo_cons, scanRemoveGo_nil_of_keyless _ _ _ l2 h2]
  simp [cellExcluded, hkeyc]

theorem scanRemove_unique_single (placed : Placed) (key : String)
    (pos : Nat × Nat) (r : Nat)
    (hnd : (placed.map Prod.fst).Nodup)
    (hmem : (pos, CellInfo.single key r) ∈ placed)
    (huniq : ∀ en ∈ placed, cellHasCourse key en.2 = true →
      en = (pos, CellInfo.single key r)) :
    scanRemove placed key none = ([], [pos]) := by
  obtain ⟨l1, l2, hsplit⟩ := List.append_of_mem hmem
  have hndspl : ((l1 ++ (pos, CellInfo.single key r) :: l2).map Prod.fst).Nodup := by
    rw [← hsplit]
    exact hnd
  rw [List.map_append, List.map_cons] at hndspl
  have hposl1 : pos ∉ l1.map Prod.fst := fun habs =>
    List.disjoint_of_nodup_append hndspl habs (List.mem_cons_self _ _)
  have hposl2 : pos ∉ l2.map Prod.fst := by
    have h := (List.nodup_append.mp hndspl).2.1
    rw [List.nodup_cons] at h
    exact h.1
  have h1 : ∀ en ∈ l1, cellExcluded none en.1 = true ∨ cellHasCourse key en.2 = false := by
    intro en hen
    right
    by_contra habs
    rw [Bool.not_eq_false] at habs
    have heq := huniq en (by rw [hsplit]; exact List.mem_append_left _ hen) habs
    refine hposl1 (List.mem_map.mpr ⟨en, hen, ?_⟩)
    rw [heq]
  have h2 : ∀ en ∈ l2, cellExcluded none en.1 = true ∨ cellHasCourse key en.2 = false := by
    intro en hen
    right
    by_contra habs
    rw [Bool.not_eq_false] at habs
    have heq := huniq en (by
      rw [hsplit]
      exact List.mem_append_right _ (List.mem_cons_of_mem _ hen)) habs
    refine hposl2 (List.mem_map.mpr ⟨en, hen, ?_⟩)
    rw [heq]
  have hrfl : scanRemove placed key none = scanRemoveGo placed key none placed := rfl
  rw [hrfl, hsplit]
  rw [scanRemoveGo_append, scanRemoveGo_nil_of_keyless _ _ _ l1 h1,
    scanRemoveGo_cons, scanRemoveGo_nil_of_keyless _ _ _ l2 h2]
  simp [cellExcluded]

theorem removeFromDual_succ_eq (courses : Catalog) (key : String)
    (fuel : Nat) (placed : Placed) (pos : Nat × Nat) (o e : String) (r : Nat) :
    removeFromDual courses key (fuel + 1) placed pos o e r =
      (if lookupCell placed pos == some (CellInfo.dual o e r) then
        match lookupCourse courses (if o == key then e else o) with
        | none => delCell placed pos
        | some _ =>
          removeExceptCell courses key fuel
            (delCell placed pos ++
              [(pos, CellInfo.single (if o == key then e else o) r)]) pos
      else placed) := rfl

theorem removeExceptCell_of_scan_nil (courses : Catalog) (key : String)
    (fuel : Nat) (placed : Placed) (exc : Nat × Nat)
    (hscan : scanRemove placed key (some exc) = ([], [])) :
    removeExceptCell courses key fuel placed exc = placed := by
  cases fuel with
  | zero => rfl
  | succ m =>
    have hg : removeExceptCell courses key (m + 1) placed exc =
        (scanRemove placed key (some exc)).2.foldl delCell
          ((scanRemove placed key (some exc)).1.foldl
            (fun p c => removeFromDual courses key m p c.1 c.2.1 c.2.2.1 c.2.2.2)
            placed) := rfl
    rw [hg, hscan]
    rfl

theorem remove_unique_dual_partner (courses : Catalog) (key : String)
    (placed : Placed) (pos : Nat × Nat) (o e : String) (r : Nat)
    (hnd : (placed.map Prod.fst).Nodup)
    (hmem : (pos, CellInfo.dual o e r) ∈ placed)
    (hkeyc : (o == key || e == key) = true)
    (huniq : ∀ en ∈ placed, cellHasCourse key en.2 = true →
      en = (pos, CellInfo.dual o e r))
    (hpe : partnerElsewhere placed none pos (if o == key then e else o) = true)
    (hcat : (lookupCourse courses (if o == key then e else o)).isSome = true) :
    remove_course_from_schedule courses key placed =
      delCell placed pos ++ [(pos, CellInfo.single (if o == key then e else o) r)] := by
  have hscan := scanRemove_unique_dual placed key pos o e r hnd hmem hkeyc huniq
  rw [if_pos hpe] at hscan
  have hrc : remove_course_from_schedule courses key placed =
      (scanRemove placed key none).2.foldl delCell
        ((scanRemove placed key none).1.foldl
          (fun p c => removeFromDual courses key (2 * placed.length + 2) p
            c.1 c.2.1 c.2.2.1 c.2.2.2)
          placed) := rfl
  rw [hrc, hscan]
  simp only [List.foldl_cons, List.foldl_nil]
  rw [show (2 * placed.length + 2) = (2 * placed.length + 1) + 1 from rfl,
    removeFromDual_succ_eq]
  have hlk : lookupCell placed pos = some (CellInfo.dual o e r) :=
    lookupCell_of_nodup placed pos _ hnd hmem
  rw [if_pos (by rw [hlk]; simp)]
  obtain ⟨cobj, hcobj⟩ := Option.isSome_iff_exists.mp hcat
  rw [hcobj]
  dsimp only
  have hkeyless : ∀ en ∈ delCell placed pos ++
      [(pos, CellInfo.single (if o == key then e else o) r)],
      cellExcluded (some pos) en.1 = true ∨ cellHasCourse key en.2 = false := by
    intro en hen
    rcases List.mem_append.mp hen with h | h
    · right
      by_contra habs
      rw [Bool.not_eq_false] at habs
      have heq := huniq en (mem_of_mem_delCell placed pos en h) habs
      have hf := (List.mem_filter.mp h).2
      rw [heq] at hf
      simp at hf
    · left
      have heq : en = (pos, CellInfo.single (if o == key then e else o) r) := by
        simpa using h
      rw [heq]
      simp [cellExcluded]
  have hscan2 : scanRemove (delCell placed pos ++
      [(pos, CellInfo.single (if o == key then e else o) r)]) key (some pos) =
      ([], []) :=
    scanRemoveGo_nil_of_keyless _ key (some pos) _ hkeyless
  exact removeExceptCell_of_scan_nil courses key (2 * placed.length + 1) _ pos hscan2

theorem remove_unique_dual_nopartner (courses : Catalog) (key : String)
    (placed : Placed) (pos : Nat × Nat) (o e : String) (r : Nat)
    (hnd : (placed.map Prod.fst).Nodup)
    (hmem : (pos, CellInfo.dual o e r) ∈ placed)
    (hkeyc : (o == key || e == key) = true)
    (huniq : ∀ en ∈ placed, cellHasCourse key en.2 = true →
      en = (pos, CellInfo.dual o e r))
    (hpe : partnerElsewhere placed none pos (if o == key then e else o) = false) :
    remove_course_from_schedule courses key placed = delCell placed pos := by
  have hscan := scanRemove_unique_dual placed key pos o e r hnd hmem hkeyc huniq
  rw [hpe] at hscan
  simp only [Bool.false_eq_true, if_false] at hscan
  have hrc : remove_course_from_schedule courses key placed =
      (scanRemove placed key none).2.foldl delCell
        ((scanRemove placed key none).1.foldl
          (fun p c => removeFromDual courses key (2 * placed.length + 2) p
            c.1 c.2.1 c.2.2.1 c.2.2.2)
          placed) := rfl
  rw [hrc, hscan]
  rfl

theorem remove_unique_single (courses : Catalog) (key : String)
    (placed : Placed) (pos : Nat × Nat) (r : Nat)
    (hnd : (placed.map Prod.fst).Nodup)
    (hmem : (pos, CellInfo.single key r) ∈ placed)
    (huniq : ∀ en ∈ placed, cellHasCourse key en.2 = true →
      en = (pos, CellInfo.single key r)) :
    remove_course_from_schedule courses key placed = delCell placed pos := by
  have hscan := scanRemove_unique_single placed key pos r hnd hmem huniq
  have hrc : remove_course_from_schedule courses key placed =
      (scanRemove placed key none).2.foldl delCell
        ((scanRemove placed key none).1.foldl
          (fun p c => removeFromDual courses key (2 * placed.length + 2) p
            c.1 c.2.1 c.2.2.1 c.2.2.2)
          placed) := rfl
  rw [hrc, hscan]
  rfl

theorem remove_keyless_preserved (courses : Catalog) (key : String) (placed : Placed)
    (hnd : (placed.map Prod.fst).Nodup) :
    ∀ q i, (q, i) ∈ placed → cellHasCourse key i = false →
      (q, i) ∈ remove_course_from_schedule courses key placed := by
  intro q i hm hkl
  have hrc : remove_course_from_schedule courses key placed =
      (scanRemove placed key none).2.foldl delCell
        ((scanRemove placed key none).1.foldl
          (fun p c => removeFromDual courses key (2 * placed.length + 2) p
            c.1 c.2.1 c.2.2.1 c.2.2.2)
          placed) := rfl
  rw [hrc]
  have hconv : ∀ c ∈ (scanRemove placed key none).1,
      (c.2.1 == key || c.2.2.1 == key) = true :=
    fun c hc => scanRemoveGo_convs_sound placed key none placed c hc
  have hfold := convsFold_preserves courses key (2 * placed.length + 2)
    (remove_preserves courses key (2 * placed.length + 2)).1
    (scanRemove placed key none).1 hconv placed hnd
  have hrems := remsFold_preserves (scanRemove placed key none).2 _ hfold.1
  have hqnot : q ∉ (scanRemove placed key none).2 := by
    intro habs
    obtain ⟨i2, hi2, hk2⟩ := scanRemoveGo_rems_sound placed key none placed q habs
    have h1 := lookupCell_of_nodup placed q i hnd hm
    have h2 := lookupCell_of_nodup placed q i2 hnd hi2
    rw [h1] at h2
    have hii := Option.some.inj h2
    rw [← hii] at hk2
    simp [hkl] at hk2
  exact hrems.2 q i (hfold.2 q i hm hkl) hqnot

/-- C2 (amended): what course removal actually does.  On a store whose
positions are distinct, (i) every cell not holding the removed key
survives removal untouched; when the removed key occupies exactly one
cell, then (ii) if that cell is a Dual whose partner occupies at least
one other cell and exists in the catalog, removal rewrites exactly that
cell to a Single of the partner, re-inserted at the dictionary tail;
(iii) if that cell is a Dual whose partner occupies no other cell, the
whole cell is deleted in one step, which also removes the partner
occupancy; and (iv) if that cell is a Single of the key, the cell is
emptied.  (When the key occupies several Dual cells the cascade of
`_remove_course_sessions_except_cell` deletes the later ones outright
instead of demoting them; see the counterexample.) -/
theorem C2_removal_behaviour (courses : Catalog) (key : String) (placed : Placed)
    (hnd : (placed.map Prod.fst).Nodup) :
    (∀ q i, (q, i) ∈ placed → cellHasCourse key i = false →
      (q, i) ∈ remove_course_from_schedule courses key placed) ∧
    (∀ pos o e r, (pos, CellInfo.dual o e r) ∈ placed →
      (o == key || e == key) = true →
      (∀ en ∈ placed, cellHasCourse key en.2 = true →
        en = (pos, CellInfo.dual o e r)) →
      (partnerElsewhere placed none pos (if o == key then e else o) = true →
        (lookupCourse courses (if o == key then e else o)).isSome = true →
        remove_course_from_schedule courses key placed =
          delCell placed pos ++
            [(pos, CellInfo.single (if o == key then e else o) r)]) ∧
      (partnerElsewhere placed none pos (if o == key then e else o) = false →
        remove_course_from_schedule courses key placed = delCell placed pos)) ∧
    (∀ pos r, (pos, CellInfo.single key r) ∈ placed →
      (∀ en ∈ placed, cellHasCourse key en.2 = true →
        en = (pos, CellInfo.single key r)) →
      remove_course_from_schedule courses key placed = delCell placed pos) := by
  refine ⟨remove_keyless_preserved courses key placed hnd, ?_, ?_⟩
  · intro pos o e r hmem hkeyc huniq
    exact ⟨fun hpe hcat =>
        remove_unique_dual_partner courses key placed pos o e r hnd hmem hkeyc
          huniq hpe hcat,
      fun hpe =>
        remove_unique_dual_nopartner courses key placed pos o e r hnd hmem hkeyc
          huniq hpe⟩
  · intro pos r hmem huniq
    exact remove_unique_single courses key placed pos r hnd hmem huniq

/-- A store with one dual (A, B) cell and one single B cell, for the C2
witness. -/
def C2store : Placed :=
  [((2, 0), CellInfo.dual "A" "B" 2), ((1, 1), CellInfo.single "B" 2)]

/-- Witness for C2 on a concrete store: removing A keeps the single B
cell and rewrites the dual cell to a single B cell at the tail. -/
theorem C2_witness :
    ((1, 1), CellInfo.single "B" 2) ∈
      remove_course_from_schedule C2cat "A" C2store ∧
    remove_course_from_schedule C2cat "A" C2store =
      delCell C2store (2, 0) ++ [((2, 0), CellInfo.single "B" 2)] := by
  constructor
  · exact (C2_removal_behaviour C2cat "A" C2store (by decide)).1 (1, 1)
      (CellInfo.single "B" 2) (by decide) (by decide)
  · exact ((C2_removal_behaviour C2cat "A" C2store (by decide)).2.1 (2, 0) "A" "B" 2
      (by decide) (by decide) (by decide)).1 (by decide) (by decide)

end Golestan
